import Mathlib

/-!
Verification of the workunit post-processing pipeline of
metadata-ingestion/src/datahub/ingestion/api/source_helpers.py.

The stream-processing stages (auto_status_aspect, auto_stale_entity_removal,
auto_workunit_reporter, auto_materialize_referenced_tags, auto_browse_path_v2)
are embedded as Lean functions over lists of work units.  Python generators are
modelled as functions from the (finite) input list to the output list; a stage
that can raise mid-stream returns the units yielded before the error together
with an optional error message.  Python sets are modelled as duplicate-free
lists with insertion order (insertNew), and dicts as association lists with
in-place update (assocUpd), so that iteration order is deterministic; where the
code wraps a set in sorted(...) we sort the list.
-/

namespace SourceHelpers

/-- Modelled from the spec: BrowsePathEntryClass, a structured browse-path
entry carrying a display id and an optional resolvable urn. -/
structure BrowsePathEntry where
  id : String
  urn : Option String := none
deriving DecidableEq

/-- Modelled from the spec: the aspect payloads this core inspects
(StatusClass, ContainerClass, BrowsePathsClass, BrowsePathsV2Class,
TagKeyClass), plus a generic constructor for every other aspect type,
carrying its name and the URN-valued fields it contains. -/
inductive Aspect where
  | status (removed : Bool)
  | container (parent : String)
  | browsePaths (paths : List String)
  | browsePathsV2 (path : List BrowsePathEntry)
  | tagKey (name : String)
  | other (name : String) (urns : List String)
deriving DecidableEq

def Aspect.isStatus : Aspect → Bool
  | .status _ => true
  | _ => false

def Aspect.isBrowseV2 : Aspect → Bool
  | .browsePathsV2 _ => true
  | _ => false

/-- Modelled from the spec: each aspect kind's wire name; StatusClass.ASPECT_NAME
is "status". -/
def Aspect.aspectName : Aspect → String
  | .status _ => "status"
  | .container _ => "container"
  | .browsePaths _ => "browsePaths"
  | .browsePathsV2 _ => "browsePathsV2"
  | .tagKey _ => "tagKey"
  | .other n _ => n

/-- Modelled from the spec: the three mutually exclusive wire shapes of a
WorkUnit's metadata (full snapshot, wrapped proposal, raw proposal with a
string aspect name), plus a fourth constructor standing for any unrecognized
payload shape (the fatal-error case). -/
inductive WUMetadata where
  | mce (snapshotUrn : String) (aspects : List Aspect)
  | mcpw (entityUrn : String) (aspect : Aspect)
  | mcp (entityUrn : String) (aspectName : String)
  | unrecognized (entityUrn : String)
deriving DecidableEq

/-- Modelled from the spec: MetadataWorkUnit with its id, tagged metadata
payload and is_primary_source flag. -/
structure MetadataWorkUnit where
  id : String
  metadata : WUMetadata
  is_primary_source : Bool := true
deriving DecidableEq

/-- Modelled from the spec: wu.get_urn() — the urn is derivable uniformly from
every payload shape. -/
def MetadataWorkUnit.get_urn (wu : MetadataWorkUnit) : String :=
  match wu.metadata with
  | .mce u _ => u
  | .mcpw u _ => u
  | .mcp u _ => u
  | .unrecognized u => u

/-- Modelled from the spec: the typed aspects carried by a payload — a
snapshot bundles a list, a wrapped proposal carries one, a raw proposal's
serialized aspect exposes no typed aspects. -/
def WUMetadata.aspects : WUMetadata → List Aspect
  | .mce _ aspects => aspects
  | .mcpw _ a => [a]
  | .mcp _ _ => []
  | .unrecognized _ => []

/-- Modelled from the spec: wu.get_aspects_of_type(ContainerClass), returning
the parent urns of the container aspects carried by the unit. -/
def MetadataWorkUnit.container_aspects (wu : MetadataWorkUnit) : List String :=
  wu.metadata.aspects.filterMap fun a =>
    match a with
    | .container p => some p
    | _ => none

/-- Modelled from the spec: wu.get_aspects_of_type(BrowsePathsClass),
returning the path-string lists of the legacy browse-path aspects. -/
def MetadataWorkUnit.browse_path_aspects (wu : MetadataWorkUnit) : List (List String) :=
  wu.metadata.aspects.filterMap fun a =>
    match a with
    | .browsePaths ps => some ps
    | _ => none

/-- Modelled from the spec: whether wu.get_aspects_of_type(BrowsePathsV2Class)
is nonempty. -/
def MetadataWorkUnit.has_browse_v2 (wu : MetadataWorkUnit) : Bool :=
  wu.metadata.aspects.any Aspect.isBrowseV2

/-- Modelled from the spec: the URN-valued fields contained inside an aspect,
as traversed by list_urns. -/
def Aspect.referencedUrns : Aspect → List String
  | .status _ => []
  | .container p => [p]
  | .browsePaths _ => []
  | .browsePathsV2 path => path.filterMap (fun e => e.urn)
  | .tagKey _ => []
  | .other _ urns => urns

/-- Modelled from the spec: list_urns(metadata) — every URN-valued field
anywhere in the payload, including the entity urn itself; a raw proposal's
serialized aspect is not traversed. -/
def list_urns : WUMetadata → List String
  | .mce u aspects => u :: (aspects.map Aspect.referencedUrns).flatten
  | .mcpw u a => u :: a.referencedUrns
  | .mcp u _ => [u]
  | .unrecognized u => [u]

/-- Splitting a character list on a separator character, accumulating the
current segment in reverse; the empty input yields one empty segment, like
Python str.split with an explicit separator. -/
def splitCharsAux (c : Char) : List Char → List Char → List (List Char)
  | [], acc => [acc.reverse]
  | x :: xs, acc =>
      if x = c then acc.reverse :: splitCharsAux c xs []
      else splitCharsAux c xs (x :: acc)

/-- Python s.split(c) for a one-character separator. -/
def splitOnChar (c : Char) (s : String) : List String :=
  (splitCharsAux c s.toList []).map String.mk

/-- Python str.strip(): drop leading and trailing whitespace. -/
def pyTrim (s : String) : String :=
  String.mk
    (((s.toList.dropWhile Char.isWhitespace).reverse.dropWhile
        Char.isWhitespace).reverse)

/-- Modelled from the spec: guess_entity_type over the URN grammar
urn:li:entityType:structured-id — the third colon-separated token. -/
def guess_entity_type (urn : String) : String :=
  ((splitOnChar ':' urn).drop 2).headD ""

/-- Modelled from the spec: TagUrn.create_from_string(urn).get_entity_id() —
the entity-id segment after the urn:li:tag: prefix, split into parts when it
is a parenthesized tuple. -/
def tag_entity_id (urn : String) : List String :=
  let idPart := String.intercalate ":" ((splitOnChar ':' urn).drop 3)
  let cs := idPart.toList
  if cs.headD ' ' = '(' ∧ cs.getLastD ' ' = ')' then
    (splitCharsAux ',' (cs.drop 1).dropLast []).map String.mk
  else [idPart]

/-- Modelled from the spec: MetadataChangeProposalWrapper(entityUrn, aspect)
.as_workunit() — a primary-source unit whose id is derived from the urn and
aspect name. -/
def mcpw_as_workunit (entityUrn : String) (aspect : Aspect) : MetadataWorkUnit :=
  { id := entityUrn ++ "-" ++ aspect.aspectName
    metadata := .mcpw entityUrn aspect
    is_primary_source := true }

/-- Python set.add: append the element unless already present. -/
def insertNew (s : List String) (x : String) : List String :=
  if x ∈ s then s else s ++ [x]

/-- Python set.update: add each element of xs. -/
def insertAllNew (s : List String) (xs : List String) : List String :=
  xs.foldl insertNew s

/-- Python sorted(...) over a set of strings. -/
def sortStr (l : List String) : List String :=
  l.insertionSort (· ≤ ·)

/-- Python dict assignment d[k] = v: replace in place or append. -/
def assocUpd {α : Type} (m : List (String × α)) (k : String) (v : α) :
    List (String × α) :=
  match m with
  | [] => [(k, v)]
  | (k2, v2) :: rest =>
      if k2 = k then (k, v) :: rest else (k2, v2) :: assocUpd rest k v

/-! ### auto_status_aspect (source_helpers.py lines 53-91) -/

/-- One unit's contribution to status_urns: some true when the unit's urn is
added to status_urns (non-primary, or a recognized shape carrying a status
aspect), some false when the shape is recognized but carries no status,
none when the shape is unrecognized on a primary-source unit (the raise
branch). -/
def status_condition (wu : MetadataWorkUnit) : Option Bool :=
  if !wu.is_primary_source then some true
  else
    match wu.metadata with
    | .mce _ aspects => some (aspects.any Aspect.isStatus)
    | .mcpw _ a => some a.isStatus
    | .mcp _ name => some (name = "status")
    | .unrecognized _ => none

/-- The synthesized suffix of auto_status_aspect: one not-removed status
proposal for each urn of all_urns minus status_urns, in sorted order. -/
def statusSuffix (all status : List String) : List MetadataWorkUnit :=
  (sortStr (all.filter (fun u => ¬ u ∈ status))).map
    (fun u => mcpw_as_workunit u (.status false))

/-- The generator loop of auto_status_aspect, carrying the all_urns and
status_urns accumulators; on an unrecognized primary-source payload the
generator raises before yielding the offending unit. -/
def statusGo (all status : List String) :
    List MetadataWorkUnit → List MetadataWorkUnit × Option String
  | [] => (statusSuffix all status, none)
  | wu :: rest =>
      let urn := wu.get_urn
      let all2 := insertNew all urn
      match status_condition wu with
      | none => ([], some "Unexpected type")
      | some c =>
          let status2 := if c then insertNew status urn else status
          let res := statusGo all2 status2 rest
          (wu :: res.1, res.2)

/-- auto_status_aspect: the yielded units together with the optional fatal
error. -/
def auto_status_aspect (stream : List MetadataWorkUnit) :
    List MetadataWorkUnit × Option String :=
  statusGo [] [] stream

/-- The all_urns accumulator after consuming the stream. -/
def seenUrns : List String → List MetadataWorkUnit → List String
  | acc, [] => acc
  | acc, wu :: rest => seenUrns (insertNew acc wu.get_urn) rest

/-- The status_urns accumulator after consuming the stream; none when some
primary-source unit has an unrecognized payload shape. -/
def statusUrns : List String → List MetadataWorkUnit → Option (List String)
  | acc, [] => some acc
  | acc, wu :: rest =>
      match status_condition wu with
      | none => none
      | some c => statusUrns (if c then insertNew acc wu.get_urn else acc) rest

/-! ### auto_materialize_referenced_tags (source_helpers.py lines 140-165) -/

/-- The tag-typed urns among list_urns(wu.metadata). -/
def tagRefsOf (wu : MetadataWorkUnit) : List String :=
  (list_urns wu.metadata).filter (fun u => guess_entity_type u = "tag")

/-- The synthesized suffix of auto_materialize_referenced_tags: one tag-key
proposal for each referenced-but-never-subject tag urn, sorted. -/
def tagSuffix (referenced withAspects : List String) : List MetadataWorkUnit :=
  (sortStr (referenced.filter (fun u => ¬ u ∈ withAspects))).map
    (fun u => mcpw_as_workunit u (.tagKey ((tag_entity_id u).headD "")))

/-- The generator loop of auto_materialize_referenced_tags, carrying the
referenced_tags and tags_with_aspects accumulators. -/
def tagsGo (referenced withAspects : List String) :
    List MetadataWorkUnit → List MetadataWorkUnit
  | [] => tagSuffix referenced withAspects
  | wu :: rest =>
      let referenced2 := insertAllNew referenced (tagRefsOf wu)
      let urn := wu.get_urn
      let withAspects2 :=
        if guess_entity_type urn = "tag" then insertNew withAspects urn
        else withAspects
      wu :: tagsGo referenced2 withAspects2 rest

def auto_materialize_referenced_tags (stream : List MetadataWorkUnit) :
    List MetadataWorkUnit :=
  tagsGo [] [] stream

/-- The referenced_tags accumulator after consuming the stream. -/
def referencedTagsAcc : List String → List MetadataWorkUnit → List String
  | acc, [] => acc
  | acc, wu :: rest => referencedTagsAcc (insertAllNew acc (tagRefsOf wu)) rest

/-- The tags_with_aspects accumulator after consuming the stream. -/
def tagsWithAspectsAcc : List String → List MetadataWorkUnit → List String
  | acc, [] => acc
  | acc, wu :: rest =>
      tagsWithAspectsAcc
        (if guess_entity_type wu.get_urn = "tag" then insertNew acc wu.get_urn
         else acc) rest

/-! ### auto_stale_entity_removal (source_helpers.py lines 94-124) -/

/-- Modelled from the spec: the call transcript recorded on the external
StaleEntityRemovalHandler collaborator — the sequence of
add_entity_to_state(entity_type, urn) calls and of add_urn_to_skip(urn)
calls, in order. -/
structure StaleHandlerCalls where
  state_calls : List (String × String) := []
  skip_calls : List String := []
deriving DecidableEq

/-- _default_entity_type_fn: guess the entity type from the unit's urn. -/
def _default_entity_type_fn (wu : MetadataWorkUnit) : Option String :=
  some (guess_entity_type wu.get_urn)

/-- The generator loop of auto_stale_entity_removal; removals is the list of
workunits the collaborator's gen_removed_entity_workunits yields at
end-of-stream (collaborator-owned, taken as a parameter). -/
def staleGo (etf : MetadataWorkUnit → Option String)
    (removals : List MetadataWorkUnit) (calls : StaleHandlerCalls) :
    List MetadataWorkUnit → List MetadataWorkUnit × StaleHandlerCalls
  | [] => (removals, calls)
  | wu :: rest =>
      let urn := wu.get_urn
      let calls2 :=
        if wu.is_primary_source then
          match etf wu with
          | some t => { calls with state_calls := calls.state_calls ++ [(t, urn)] }
          | none => calls
        else { calls with skip_calls := calls.skip_calls ++ [urn] }
      let res := staleGo etf removals calls2 rest
      (wu :: res.1, res.2)

def auto_stale_entity_removal (etf : MetadataWorkUnit → Option String)
    (removals : List MetadataWorkUnit) (stream : List MetadataWorkUnit) :
    List MetadataWorkUnit × StaleHandlerCalls :=
  staleGo etf removals {} stream

/-! ### auto_workunit_reporter (source_helpers.py lines 130-137) -/

/-- The generator loop of auto_workunit_reporter; the second component is the
transcript of report.report_workunit(wu) calls, in order. -/
def reporterGo (reported : List MetadataWorkUnit) :
    List MetadataWorkUnit → List MetadataWorkUnit × List MetadataWorkUnit
  | [] => ([], reported)
  | wu :: rest =>
      let res := reporterGo (reported ++ [wu]) rest
      (wu :: res.1, res.2)

def auto_workunit_reporter (stream : List MetadataWorkUnit) :
    List MetadataWorkUnit × List MetadataWorkUnit :=
  reporterGo [] stream

/-! ### auto_browse_path_v2 (source_helpers.py lines 168-233) -/

/-- The pass-1 accumulation state of auto_browse_path_v2. -/
structure BPState where
  ignore_urns : List String := []
  legacy_browse_paths : List (String × List String) := []
  container_urns : List String := []
  parent_container_map : List (String × String) := []
  children : List (String × List String) := []
deriving DecidableEq

/-- Python path.strip of the slash character: drop leading and trailing
slashes. -/
def pyStripSlash (s : String) : String :=
  String.mk
    (((s.toList.dropWhile (fun c => c = '/')).reverse.dropWhile
        (fun c => c = '/')).reverse)

/-- The legacy-path segment computation: strip outer slashes, split on "/",
keep segments whose trimmed value is not in drop_dirs (segments themselves
are kept verbatim). -/
def legacySegments (drop_dirs : List String) (path : String) : List String :=
  (splitOnChar '/' (pyStripSlash path)).filter
    (fun p => ¬ pyTrim p ∈ drop_dirs)

/-- Recording one container aspect: the edge urn→parent in the child→parent
map and urn into the parent's children list. -/
def bpStepContainer (urn : String) (s : BPState) (parent : String) : BPState :=
  { s with
    parent_container_map := assocUpd s.parent_container_map urn parent
    children :=
      assocUpd s.children parent
        ((s.children.lookup parent).getD [] ++ [urn]) }

/-- Recording one legacy browse-paths aspect: only the first path of a
nonempty list is taken; an empty list records nothing. -/
def bpStepLegacy (drop_dirs : List String) (urn : String) (s : BPState)
    (ps : List String) : BPState :=
  match ps with
  | [] => s
  | path :: _ =>
      { s with
        legacy_browse_paths :=
          assocUpd s.legacy_browse_paths urn (legacySegments drop_dirs path) }

/-- The pass-1 update of the accumulation state for one unit. -/
def bpStep (drop_dirs : List String) (st : BPState) (wu : MetadataWorkUnit) :
    BPState :=
  let urn := wu.get_urn
  let st1 :=
    if guess_entity_type urn = "container" then
      { st with container_urns := insertNew st.container_urns urn }
    else st
  let st2 := wu.container_aspects.foldl (bpStepContainer urn) st1
  let st3 := wu.browse_path_aspects.foldl (bpStepLegacy drop_dirs urn) st2
  if wu.has_browse_v2 then
    { st3 with ignore_urns := insertNew st3.ignore_urns urn }
  else st3

/-- The hierarchy-derived browse-path workunit for a node: entries carry both
id and urn. -/
def browseV2Unit (node : String) (path : List String) : MetadataWorkUnit :=
  mcpw_as_workunit node
    (.browsePathsV2 (path.map (fun u => { id := u, urn := some u })))

/-- The legacy-derived browse-path workunit: id-only entries. -/
def legacyV2Unit (urn : String) (segs : List String) : MetadataWorkUnit :=
  mcpw_as_workunit urn
    (.browsePathsV2 (segs.map (fun p => { id := p, urn := none })))

/-- The emission step at one pop of the work-list: a node in the skip set
yields nothing and is not marked processed; otherwise its v2 browse-path
unit is emitted and the node recorded as processed. -/
def bpEmit (ignore : List String) (node : String) (pr : List String)
    (res : List MetadataWorkUnit × List String × Bool) :
    List MetadataWorkUnit × List String × Bool :=
  if node ∈ ignore then res
  else (browseV2Unit node pr :: res.1, node :: res.2.1, res.2.2)

/-- The pass-2 work-list loop of auto_browse_path_v2, with explicit fuel
standing for the unbounded while loop; the Python set is modelled popping
from the front.  Returns the emitted workunits, the processed urns and a
flag that is true exactly when the work-list was emptied without a failed
path lookup (a lookup of an unvisited parent raises KeyError in the code)
and without running out of fuel. -/
def bpLoop (pm : List (String × String)) (children : List (String × List String))
    (ignore : List String) :
    Nat → List String → List (String × List String) →
      List MetadataWorkUnit × List String × Bool
  | 0, nodes, _ => ([], [], nodes.isEmpty)
  | _ + 1, [], _ => ([], [], true)
  | fuel + 1, node :: rest, paths =>
      match pm.lookup node with
      | none =>
          bpEmit ignore node []
            (bpLoop pm children ignore fuel
              (insertAllNew rest ((children.lookup node).getD []))
              (assocUpd paths node []))
      | some parent =>
          match paths.lookup parent with
          | none => ([], [], false)
          | some pp =>
              bpEmit ignore node (pp ++ [parent])
                (bpLoop pm children ignore fuel
                  (insertAllNew rest ((children.lookup node).getD []))
                  (assocUpd paths node (pp ++ [parent])))

/-- The end-of-stream synthesis of auto_browse_path_v2: the work-list loop
over root containers, then (when the loop terminated normally) the
legacy-derived units for urns neither processed nor ignored. -/
def bpFinalize (fuel : Nat) (st : BPState) : List MetadataWorkUnit :=
  let roots :=
    st.container_urns.filter (fun u => (st.parent_container_map.lookup u).isNone)
  let res := bpLoop st.parent_container_map st.children st.ignore_urns fuel roots []
  let processed := res.2.1
  res.1 ++
    (if res.2.2 then
      ((st.legacy_browse_paths.map Prod.fst).filter
          (fun u => ¬ u ∈ processed ∧ ¬ u ∈ st.ignore_urns)).map
        (fun u => legacyV2Unit u ((st.legacy_browse_paths.lookup u).getD []))
    else [])

/-- The generator of auto_browse_path_v2: pass-through while accumulating,
then the end-of-stream synthesis. -/
def bpGo (fuel : Nat) (drop_dirs : List String) (st : BPState) :
    List MetadataWorkUnit → List MetadataWorkUnit
  | [] => bpFinalize fuel st
  | wu :: rest => wu :: bpGo fuel drop_dirs (bpStep drop_dirs st wu) rest

def auto_browse_path_v2 (fuel : Nat) (drop_dirs : List String)
    (stream : List MetadataWorkUnit) : List MetadataWorkUnit :=
  bpGo fuel drop_dirs {} stream

/-- The pass-1 state after consuming the whole stream. -/
def bpState (drop_dirs : List String) (stream : List MetadataWorkUnit) : BPState :=
  stream.foldl (bpStep drop_dirs) {}

/-- The root containers of a pass-1 state: container urns with no recorded
parent. -/
def bpRoots (st : BPState) : List String :=
  st.container_urns.filter (fun u => (st.parent_container_map.lookup u).isNone)

/-- The result of the pass-2 work-list loop over the whole stream. -/
def bpLoopResult (fuel : Nat) (drop_dirs : List String)
    (stream : List MetadataWorkUnit) :
    List MetadataWorkUnit × List String × Bool :=
  let st := bpState drop_dirs stream
  bpLoop st.parent_container_map st.children st.ignore_urns fuel (bpRoots st) []

/-- The legacy-derived units emitted after the loop. -/
def bpLegacyEmits (fuel : Nat) (drop_dirs : List String)
    (stream : List MetadataWorkUnit) : List MetadataWorkUnit :=
  let st := bpState drop_dirs stream
  if (bpLoopResult fuel drop_dirs stream).2.2 then
    ((st.legacy_browse_paths.map Prod.fst).filter
        (fun u => ¬ u ∈ (bpLoopResult fuel drop_dirs stream).2.1 ∧
          ¬ u ∈ st.ignore_urns)).map
      (fun u => legacyV2Unit u ((st.legacy_browse_paths.lookup u).getD []))
  else []

/-- The parent-of step relation recorded in a parent map. -/
def parentStep (pm : List (String × String)) (m a : String) : Prop :=
  pm.lookup m = some a

/-- Proper-ancestor relation: the transitive closure of the parent step,
unrolled head-first. -/
inductive isAncestor (pm : List (String × String)) : String → String → Prop
  | parent (m a : String) : parentStep pm m a → isAncestor pm m a
  | step (m p a : String) : parentStep pm m p → isAncestor pm p a →
      isAncestor pm m a

/-- The state-registration transcript auto_stale_entity_removal is expected to
produce: one add_entity_to_state call per primary-source unit whose entity
type resolves. -/
def expectedStateCalls (etf : MetadataWorkUnit → Option String)
    (stream : List MetadataWorkUnit) : List (String × String) :=
  stream.filterMap fun wu =>
    if wu.is_primary_source then (etf wu).map (fun t => (t, wu.get_urn))
    else none

/-- The skip transcript auto_stale_entity_removal is expected to produce: one
add_urn_to_skip call per non-primary-source unit. -/
def expectedSkipCalls (stream : List MetadataWorkUnit) : List String :=
  (stream.filter (fun wu => ¬ wu.is_primary_source)).map
    MetadataWorkUnit.get_urn

/-! ### Concrete streams used by the witnesses -/

/-- A primary-source wrapped-proposal unit. -/
def wuP (u : String) (a : Aspect) : MetadataWorkUnit :=
  { id := u, metadata := .mcpw u a, is_primary_source := true }

/-- A non-primary-source wrapped-proposal unit. -/
def wuNP (u : String) (a : Aspect) : MetadataWorkUnit :=
  { id := u, metadata := .mcpw u a, is_primary_source := false }

/-- Demo stream for the status stage: one urn already carrying a status, one
without, one seen only on a non-primary unit. -/
def demoStatusStream : List MetadataWorkUnit :=
  [ wuP "urn:li:dataset:B" (.status true),
    wuP "urn:li:dataset:A" (.other "x" []),
    wuNP "urn:li:dataset:C" (.other "x" []) ]

/-- A primary-source unit with an unrecognized payload shape. -/
def demoBadUnit : MetadataWorkUnit :=
  { id := "bad", metadata := .unrecognized "urn:li:dataset:BAD",
    is_primary_source := true }

/-- Demo container chain A→B→C with C the root, streamed leaves-first. -/
def demoChainStream : List MetadataWorkUnit :=
  [ wuP "urn:li:container:A" (.container "urn:li:container:B"),
    wuP "urn:li:container:B" (.container "urn:li:container:C"),
    wuP "urn:li:container:C" (.other "props" []) ]

/-- Demo stream for the legacy browse-path fallback: a dataset whose only
hierarchy information is a v1 browse-path aspect with two paths. -/
def demoLegacyStream : List MetadataWorkUnit :=
  [ wuP "urn:li:dataset:D" (.browsePaths ["/a/b/c", "/z/z2"]) ]

/-- Demo stream for tag materialization: a tag referenced inside a payload and
never a primary subject, next to a tag that is a subject. -/
def demoTagStream : List MetadataWorkUnit :=
  [ wuP "urn:li:dataset:A" (.other "globalTags" ["urn:li:tag:pii", "urn:li:tag:zz"]),
    wuP "urn:li:tag:zz" (.tagKey "zz") ]

/-- Demo removal units handed back by the checkpoint collaborator. -/
def demoRemovals : List MetadataWorkUnit :=
  [ wuP "urn:li:dataset:Y" (.status true) ]

/-- Demo stream for the container-aspect-on-a-dataset case: a dataset child of
a root container. -/
def demoDatasetChildStream : List MetadataWorkUnit :=
  [ wuP "urn:li:container:P" (.other "props" []),
    wuP "urn:li:dataset:D" (.container "urn:li:container:P") ]

/-! ### Set and sort helper lemmas -/

theorem get_urn_mcpw_as_workunit (u : String) (a : Aspect) :
    (mcpw_as_workunit u a).get_urn = u := rfl

theorem mem_insertNew {s : List String} {x u : String} :
    u ∈ insertNew s x ↔ u ∈ s ∨ u = x := by
  unfold insertNew
  split
  · rename_i hx
    constructor
    · exact fun h => Or.inl h
    · rintro (h | rfl)
      · exact h
      · exact hx
  · simp

theorem insertNew_nodup {s : List String} {x : String} (h : s.Nodup) :
    (insertNew s x).Nodup := by
  unfold insertNew
  split
  · exact h
  · rename_i hx
    simp [List.nodup_append, h, hx]

theorem mem_insertAllNew :
    ∀ (xs : List String) (s : List String) (u : String),
      u ∈ insertAllNew s xs ↔ u ∈ s ∨ u ∈ xs
  | [], s, u => by simp [insertAllNew]
  | x :: xs, s, u => by
      show u ∈ insertAllNew (insertNew s x) xs ↔ _
      rw [mem_insertAllNew xs]
      simp [mem_insertNew]
      tauto

theorem insertAllNew_nodup :
    ∀ (xs : List String) (s : List String), s.Nodup → (insertAllNew s xs).Nodup
  | [], _, h => h
  | x :: xs, s, h => insertAllNew_nodup xs (insertNew s x) (insertNew_nodup h)

theorem sortStr_sorted (l : List String) :
    (sortStr l).Sorted (· ≤ ·) :=
  List.sorted_insertionSort _ l

theorem sortStr_perm (l : List String) : List.Perm (sortStr l) l :=
  List.perm_insertionSort _ l

theorem mem_sortStr {l : List String} {u : String} : u ∈ sortStr l ↔ u ∈ l :=
  (sortStr_perm l).mem_iff

theorem sortStr_nodup {l : List String} (h : l.Nodup) : (sortStr l).Nodup :=
  ((sortStr_perm l).nodup_iff).mpr h

theorem lookup_cons {α : Type} (k1 k2 : String) (v1 : α)
    (rest : List (String × α)) :
    ((k1, v1) :: rest).lookup k2 = if k2 = k1 then some v1 else rest.lookup k2 := by
  by_cases h : k2 = k1
  · subst h
    simp [List.lookup]
  · have hb : (k2 == k1) = false := beq_eq_false_iff_ne.mpr h
    simp [List.lookup, hb, h]

theorem lookup_assocUpd {α : Type} :
    ∀ (m : List (String × α)) (k k2 : String) (v : α),
      (assocUpd m k v).lookup k2 = if k2 = k then some v else m.lookup k2
  | [], k, k2, v => by
      show ([(k, v)]).lookup k2 = _
      rw [lookup_cons]
  | (k1, v1) :: rest, k, k2, v => by
      unfold assocUpd
      by_cases h1 : k1 = k
      · subst h1
        by_cases h2 : k2 = k1 <;> simp [lookup_cons, h2]
      · by_cases h2 : k2 = k1
        · subst h2
          simp [lookup_cons, h1, Ne.symm h1]
        · simp [lookup_cons, h1, h2, lookup_assocUpd rest k k2 v]

/-! ### auto_status_aspect lemmas -/

theorem status_condition_nonprimary {wu : MetadataWorkUnit}
    (h : wu.is_primary_source = false) : status_condition wu = some true := by
  unfold status_condition
  simp [h]

theorem statusSuffix_map_urn (all status : List String) :
    (statusSuffix all status).map MetadataWorkUnit.get_urn
      = sortStr (all.filter (fun u => ¬ u ∈ status)) := by
  unfold statusSuffix
  rw [List.map_map]
  exact List.map_id _

theorem mem_seenUrns :
    ∀ (stream : List MetadataWorkUnit) (acc : List String) (u : String),
      u ∈ seenUrns acc stream ↔ u ∈ acc ∨ ∃ wu ∈ stream, wu.get_urn = u
  | [], acc, u => by simp [seenUrns]
  | wu :: rest, acc, u => by
      show u ∈ seenUrns (insertNew acc wu.get_urn) rest ↔ _
      rw [mem_seenUrns rest]
      simp [mem_insertNew]
      constructor
      · rintro ((h | h) | h)
        · exact Or.inl h
        · exact Or.inr (Or.inl h.symm)
        · exact Or.inr (Or.inr h)
      · rintro (h | h | h)
        · exact Or.inl (Or.inl h)
        · exact Or.inl (Or.inr h.symm)
        · exact Or.inr h

theorem seenUrns_nodup :
    ∀ (stream : List MetadataWorkUnit) (acc : List String), acc.Nodup →
      (seenUrns acc stream).Nodup
  | [], _, h => h
  | wu :: rest, acc, h => seenUrns_nodup rest _ (insertNew_nodup h)

theorem mem_ite_insertNew {acc : List String} {urn u : String} {c : Bool} :
    u ∈ (if c then insertNew acc urn else acc) ↔
      u ∈ acc ∨ (c = true ∧ u = urn) := by
  cases c <;> simp [mem_insertNew]

theorem statusUrns_mem :
    ∀ (stream : List MetadataWorkUnit) (acc S : List String),
      statusUrns acc stream = some S →
      ∀ u, u ∈ S ↔ u ∈ acc ∨
        ∃ wu ∈ stream, status_condition wu = some true ∧ wu.get_urn = u
  | [], acc, S, h, u => by
      simp [statusUrns] at h
      subst h
      simp
  | wu :: rest, acc, S, h, u => by
      rw [statusUrns] at h
      cases hc : status_condition wu with
      | none => rw [hc] at h; exact absurd h (by simp)
      | some c =>
          rw [hc] at h
          rw [statusUrns_mem rest _ S h u, mem_ite_insertNew,
            List.exists_mem_cons_iff, hc]
          simp only [Option.some.injEq]
          constructor
          · rintro ((h1 | ⟨hc1, hu1⟩) | h1)
            · exact Or.inl h1
            · exact Or.inr (Or.inl ⟨hc1, hu1.symm⟩)
            · exact Or.inr (Or.inr h1)
          · rintro (h1 | ⟨hc1, hu1⟩ | h1)
            · exact Or.inl (Or.inl h1)
            · exact Or.inl (Or.inr ⟨hc1, hu1.symm⟩)
            · exact Or.inr h1

theorem statusGo_eq :
    ∀ (stream : List MetadataWorkUnit) (all status S : List String),
      statusUrns status stream = some S →
      statusGo all status stream
        = (stream ++ statusSuffix (seenUrns all stream) S, none)
  | [], all, status, S, h => by
      simp [statusUrns] at h
      subst h
      simp [statusGo, seenUrns]
  | wu :: rest, all, status, S, h => by
      rw [statusUrns] at h
      rw [statusGo]
      cases hc : status_condition wu with
      | none => rw [hc] at h; exact absurd h (by simp)
      | some c =>
          rw [hc] at h
          simp only []
          rw [statusGo_eq rest _ _ S h]
          rfl

theorem statusGo_err :
    ∀ (pre : List MetadataWorkUnit) (all status : List String)
      (bad : MetadataWorkUnit) (post : List MetadataWorkUnit),
      (statusUrns status pre).isSome → status_condition bad = none →
      statusGo all status (pre ++ bad :: post) = (pre, some "Unexpected type")
  | [], all, status, bad, post, _, hbad => by
      rw [List.nil_append, statusGo, hbad]
  | wu :: pre, all, status, bad, post, h, hbad => by
      rw [List.cons_append, statusGo]
      cases hc : status_condition wu with
      | none =>
          rw [statusUrns, hc] at h
          simp at h
      | some c =>
          rw [statusUrns, hc] at h
          have h2 := statusGo_err pre (insertNew all wu.get_urn)
            (if c then insertNew status wu.get_urn else status) bad post h hbad
          simp only []
          rw [h2]

theorem status_condition_isSome_of {wu : MetadataWorkUnit}
    (h : wu.is_primary_source = true → ∀ v, wu.metadata ≠ .unrecognized v) :
    (status_condition wu).isSome := by
  unfold status_condition
  cases hp : wu.is_primary_source with
  | false => simp
  | true =>
      cases hm : wu.metadata with
      | unrecognized v => exact absurd hm (h hp v)
      | mce u aspects => simp
      | mcpw u a => simp
      | mcp u n => simp

theorem status_condition_mk_status (u : String) :
    status_condition (mcpw_as_workunit u (.status false)) = some true := rfl

theorem statusUrns_isSome_iff :
    ∀ (stream : List MetadataWorkUnit) (acc : List String),
      (statusUrns acc stream).isSome ↔
        ∀ wu ∈ stream, (status_condition wu).isSome
  | [], acc => by simp [statusUrns]
  | wu :: rest, acc => by
      rw [statusUrns]
      cases hc : status_condition wu with
      | none => simp [hc]
      | some c =>
          rw [statusUrns_isSome_iff rest]
          simp [hc]

theorem statusGo_none_imp_isSome :
    ∀ (stream : List MetadataWorkUnit) (all status : List String),
      (statusGo all status stream).2 = none → (statusUrns status stream).isSome
  | [], _, _, _ => by simp [statusUrns]
  | wu :: rest, all, status, h => by
      rw [statusGo] at h
      rw [statusUrns]
      cases hc : status_condition wu with
      | none => rw [hc] at h; simp at h
      | some c =>
          rw [hc] at h
          exact statusGo_none_imp_isSome rest _ _ h

theorem mem_statusSuffix {all status : List String} {wu : MetadataWorkUnit} :
    wu ∈ statusSuffix all status ↔
      ∃ u, u ∈ all ∧ ¬ u ∈ status ∧ wu = mcpw_as_workunit u (.status false) := by
  unfold statusSuffix
  simp only [List.mem_map, mem_sortStr, List.mem_filter, decide_eq_true_eq]
  constructor
  · rintro ⟨u, ⟨hu, hns⟩, rfl⟩
    exact ⟨u, hu, hns, rfl⟩
  · rintro ⟨u, hu, hns, rfl⟩
    exact ⟨u, ⟨hu, hns⟩, rfl⟩

/-- C1: after the stream is exhausted, auto_status_aspect emits exactly one
synthetic status workunit (a wrapped proposal with removed=false) for each URN
in (all seen URNs) minus (URNs already carrying a status marker), in sorted
URN order; non-primary-source units contribute their URN to the has-status set
unconditionally, so a URN appearing only on non-primary-source units never
gets a synthetic status unit. -/
theorem auto_status_aspect_spec (stream : List MetadataWorkUnit)
    (S : List String) (h : statusUrns [] stream = some S) :
    ∃ suffix,
      auto_status_aspect stream = (stream ++ suffix, none) ∧
      (suffix.map MetadataWorkUnit.get_urn).Sorted (· ≤ ·) ∧
      (suffix.map MetadataWorkUnit.get_urn).Nodup ∧
      (∀ wu ∈ suffix,
        wu.metadata = .mcpw wu.get_urn (.status false) ∧
        wu.is_primary_source = true) ∧
      (∀ u, (∃ wu ∈ suffix, wu.get_urn = u) ↔
        ((∃ wu ∈ stream, wu.get_urn = u) ∧ ¬ u ∈ S)) ∧
      (∀ wu ∈ stream, wu.is_primary_source = false → wu.get_urn ∈ S) ∧
      (∀ u, (∀ wu ∈ stream, wu.get_urn = u → wu.is_primary_source = false) →
        ∀ wu ∈ suffix, wu.get_urn ≠ u) := by
  refine ⟨statusSuffix (seenUrns [] stream) S, statusGo_eq stream [] [] S h, ?_, ?_, ?_, ?_, ?_, ?_⟩
  · rw [statusSuffix_map_urn]
    exact sortStr_sorted _
  · rw [statusSuffix_map_urn]
    exact sortStr_nodup ((seenUrns_nodup stream [] List.nodup_nil).filter _)
  · intro wu hwu
    obtain ⟨u, _, _, rfl⟩ := mem_statusSuffix.mp hwu
    exact ⟨rfl, rfl⟩
  · intro u
    constructor
    · rintro ⟨wu, hwu, rfl⟩
      obtain ⟨v, hv, hvs, rfl⟩ := mem_statusSuffix.mp hwu
      rw [get_urn_mcpw_as_workunit]
      exact ⟨(mem_seenUrns stream [] v).mp hv |>.resolve_left (by simp), hvs⟩
    · rintro ⟨⟨wu, hwu, rfl⟩, hns⟩
      refine ⟨mcpw_as_workunit wu.get_urn (.status false), ?_, rfl⟩
      exact mem_statusSuffix.mpr
        ⟨wu.get_urn, (mem_seenUrns stream [] _).mpr (Or.inr ⟨wu, hwu, rfl⟩), hns, rfl⟩
  · intro wu hwu hnp
    exact (statusUrns_mem stream [] S h wu.get_urn).mpr
      (Or.inr ⟨wu, hwu, status_condition_nonprimary hnp, rfl⟩)
  · intro u hall wu hwu heq
    obtain ⟨v, hv, hvs, rfl⟩ := mem_statusSuffix.mp hwu
    rw [get_urn_mcpw_as_workunit] at heq
    subst heq
    rcases (mem_seenUrns stream [] v).mp hv with hin | ⟨wu2, hwu2, hurn⟩
    · simp at hin
    · have hnp := hall wu2 hwu2 hurn
      exact hvs ((statusUrns_mem stream [] S h _).mpr
        (Or.inr ⟨wu2, hwu2, status_condition_nonprimary hnp, hurn⟩))

/-- Witness for C1 at a concrete stream: one urn already carrying a status,
one without (which gets the synthetic unit), one seen only on a non-primary
unit (which does not). -/
theorem auto_status_aspect_spec_witness :
    statusUrns [] demoStatusStream = some ["urn:li:dataset:B", "urn:li:dataset:C"] ∧
    ∃ suffix,
      auto_status_aspect demoStatusStream = (demoStatusStream ++ suffix, none) ∧
      (suffix.map MetadataWorkUnit.get_urn).Sorted (· ≤ ·) ∧
      (suffix.map MetadataWorkUnit.get_urn).Nodup ∧
      (∀ wu ∈ suffix,
        wu.metadata = .mcpw wu.get_urn (.status false) ∧
        wu.is_primary_source = true) ∧
      (∀ u, (∃ wu ∈ suffix, wu.get_urn = u) ↔
        ((∃ wu ∈ demoStatusStream, wu.get_urn = u) ∧
          ¬ u ∈ ["urn:li:dataset:B", "urn:li:dataset:C"])) ∧
      (∀ wu ∈ demoStatusStream, wu.is_primary_source = false → wu.get_urn ∈
        ["urn:li:dataset:B", "urn:li:dataset:C"]) ∧
      (∀ u, (∀ wu ∈ demoStatusStream, wu.get_urn = u →
          wu.is_primary_source = false) →
        ∀ wu ∈ suffix, wu.get_urn ≠ u) :=
  ⟨rfl, auto_status_aspect_spec demoStatusStream _ rfl⟩

/-- C8: a primary-source unit whose payload is none of the three recognized
shapes makes auto_status_aspect raise immediately upon consuming it: only the
units before it are yielded, and the fatal error aborts the run (the
synthesized suffix never appears). -/
theorem auto_status_aspect_fatal_on_unrecognized
    (pre post : List MetadataWorkUnit) (bad : MetadataWorkUnit) (u : String)
    (hpre : ∀ wu ∈ pre, wu.is_primary_source = true →
      ∀ v, wu.metadata ≠ .unrecognized v)
    (hbadp : bad.is_primary_source = true)
    (hbadm : bad.metadata = .unrecognized u) :
    auto_status_aspect (pre ++ bad :: post) = (pre, some "Unexpected type") := by
  have hbad : status_condition bad = none := by
    unfold status_condition
    rw [hbadp, hbadm]
    simp
  have hsome : (statusUrns [] pre).isSome :=
    (statusUrns_isSome_iff pre []).mpr
      (fun wu hwu => status_condition_isSome_of (hpre wu hwu))
  exact statusGo_err pre [] [] bad post hsome hbad

/-- Witness for C8: a concrete three-unit prefix followed by an
unrecognized-shape primary unit and a trailing unit that is never reached. -/
theorem auto_status_aspect_fatal_on_unrecognized_witness :
    (∀ wu ∈ demoStatusStream, wu.is_primary_source = true →
      ∀ v, wu.metadata ≠ .unrecognized v) ∧
    auto_status_aspect
        (demoStatusStream ++ demoBadUnit :: [wuP "urn:li:dataset:Z" (.status false)])
      = (demoStatusStream, some "Unexpected type") := by
  have hpre : ∀ wu ∈ demoStatusStream, wu.is_primary_source = true →
      ∀ v, wu.metadata ≠ WUMetadata.unrecognized v := by
    intro wu hwu hp v
    simp only [demoStatusStream, List.mem_cons, List.not_mem_nil, or_false] at hwu
    rcases hwu with rfl | rfl | rfl <;> simp [wuP, wuNP]
  exact ⟨hpre,
    auto_status_aspect_fatal_on_unrecognized demoStatusStream
      [wuP "urn:li:dataset:Z" (.status false)] demoBadUnit "urn:li:dataset:BAD"
      hpre rfl rfl⟩

/-- C7: auto_status_aspect is idempotent — applied to the output of a
successful first pass, it yields the same sequence and synthesizes nothing
new. -/
theorem auto_status_aspect_idempotent (stream out : List MetadataWorkUnit)
    (h : auto_status_aspect stream = (out, none)) :
    auto_status_aspect out = (out, none) := by
  have h' : statusGo [] [] stream = (out, none) := h
  have h2 : (statusGo [] [] stream).2 = none := by rw [h']
  obtain ⟨S, hS⟩ := Option.isSome_iff_exists.mp (statusGo_none_imp_isSome stream [] [] h2)
  have hout : out = stream ++ statusSuffix (seenUrns [] stream) S := by
    have heq := statusGo_eq stream [] [] S hS
    rw [h'] at heq
    exact congrArg Prod.fst heq
  have hsome2 : (statusUrns [] out).isSome := by
    refine (statusUrns_isSome_iff out []).mpr ?_
    intro wu hwu
    rw [hout] at hwu
    rcases List.mem_append.mp hwu with hwu | hwu
    · exact ((statusUrns_isSome_iff stream []).mp (by rw [hS]; rfl)) wu hwu
    · obtain ⟨v, _, _, rfl⟩ := mem_statusSuffix.mp hwu
      rw [status_condition_mk_status]
      rfl
  obtain ⟨S2, hS2⟩ := Option.isSome_iff_exists.mp hsome2
  have hsub : ∀ u, u ∈ seenUrns [] out → u ∈ S2 := by
    intro u hu
    rcases (mem_seenUrns out [] u).mp hu with hin | ⟨wu, hwu, hurn⟩
    · simp at hin
    · rw [hout] at hwu
      rcases List.mem_append.mp hwu with hwu1 | hwu1
      · by_cases huS : u ∈ S
        · obtain ⟨wu2, hwu2, hcond, hurn2⟩ :=
            ((statusUrns_mem stream [] S hS u).mp huS).resolve_left (by simp)
          refine (statusUrns_mem out [] S2 hS2 u).mpr
            (Or.inr ⟨wu2, by rw [hout]; exact List.mem_append_left _ hwu2, hcond, hurn2⟩)
        · have hmem : mcpw_as_workunit u (.status false)
              ∈ statusSuffix (seenUrns [] stream) S :=
            mem_statusSuffix.mpr
              ⟨u, (mem_seenUrns stream [] u).mpr (Or.inr ⟨wu, hwu1, hurn⟩), huS, rfl⟩
          refine (statusUrns_mem out [] S2 hS2 u).mpr
            (Or.inr ⟨mcpw_as_workunit u (.status false),
              by rw [hout]; exact List.mem_append_right _ hmem,
              status_condition_mk_status u, rfl⟩)
      · obtain ⟨v, _, _, rfl⟩ := mem_statusSuffix.mp hwu1
        refine (statusUrns_mem out [] S2 hS2 u).mpr
          (Or.inr ⟨mcpw_as_workunit v (.status false),
            by rw [hout]; exact List.mem_append_right _ hwu1,
            status_condition_mk_status v, hurn⟩)
  have hfilter : (seenUrns [] out).filter (fun u => ¬ u ∈ S2) = [] := by
    rw [List.filter_eq_nil]
    intro a ha
    simp only [decide_eq_true_eq, not_not]
    exact hsub a ha
  have hfinal := statusGo_eq out [] [] S2 hS2
  rw [show statusSuffix (seenUrns [] out) S2 = [] by
        unfold statusSuffix
        rw [hfilter]
        rfl] at hfinal
  rw [List.append_nil] at hfinal
  exact hfinal

/-- Witness for C7: the theorem applied to the concrete demo stream and the
first pass's concrete output. -/
theorem auto_status_aspect_idempotent_witness :
    auto_status_aspect demoStatusStream
        = (demoStatusStream ++ [mcpw_as_workunit "urn:li:dataset:A" (.status false)], none) ∧
    auto_status_aspect
        (demoStatusStream ++ [mcpw_as_workunit "urn:li:dataset:A" (.status false)])
      = (demoStatusStream ++ [mcpw_as_workunit "urn:li:dataset:A" (.status false)], none) :=
  ⟨rfl, auto_status_aspect_idempotent demoStatusStream _ rfl⟩

/-! ### auto_materialize_referenced_tags lemmas -/

theorem mem_tagRefsOf {wu : MetadataWorkUnit} {u : String} :
    u ∈ tagRefsOf wu ↔ u ∈ list_urns wu.metadata ∧ guess_entity_type u = "tag" := by
  unfold tagRefsOf
  rw [List.mem_filter]
  simp

theorem mem_referencedTagsAcc :
    ∀ (stream : List MetadataWorkUnit) (acc : List String) (u : String),
      u ∈ referencedTagsAcc acc stream ↔
        u ∈ acc ∨ ∃ wu ∈ stream, u ∈ tagRefsOf wu
  | [], acc, u => by simp [referencedTagsAcc]
  | wu :: rest, acc, u => by
      show u ∈ referencedTagsAcc (insertAllNew acc (tagRefsOf wu)) rest ↔ _
      rw [mem_referencedTagsAcc rest, mem_insertAllNew, List.exists_mem_cons_iff]
      tauto

theorem referencedTagsAcc_nodup :
    ∀ (stream : List MetadataWorkUnit) (acc : List String), acc.Nodup →
      (referencedTagsAcc acc stream).Nodup
  | [], _, h => h
  | wu :: rest, acc, h =>
      referencedTagsAcc_nodup rest _ (insertAllNew_nodup (tagRefsOf wu) acc h)

theorem mem_tagsWithAspectsAcc :
    ∀ (stream : List MetadataWorkUnit) (acc : List String) (u : String),
      u ∈ tagsWithAspectsAcc acc stream ↔
        u ∈ acc ∨ (guess_entity_type u = "tag" ∧ ∃ wu ∈ stream, wu.get_urn = u)
  | [], acc, u => by simp [tagsWithAspectsAcc]
  | wu :: rest, acc, u => by
      show u ∈ tagsWithAspectsAcc
        (if guess_entity_type wu.get_urn = "tag" then insertNew acc wu.get_urn
         else acc) rest ↔ _
      rw [mem_tagsWithAspectsAcc rest, List.exists_mem_cons_iff]
      by_cases hg : guess_entity_type wu.get_urn = "tag"
      · rw [if_pos hg, mem_insertNew]
        constructor
        · rintro ((h1 | rfl) | ⟨hg2, h2⟩)
          · exact Or.inl h1
          · exact Or.inr ⟨hg, Or.inl rfl⟩
          · exact Or.inr ⟨hg2, Or.inr h2⟩
        · rintro (h1 | ⟨hg2, (h2 | h2)⟩)
          · exact Or.inl (Or.inl h1)
          · exact Or.inl (Or.inr h2.symm)
          · exact Or.inr ⟨hg2, h2⟩
      · rw [if_neg hg]
        constructor
        · rintro (h1 | ⟨hg2, h2⟩)
          · exact Or.inl h1
          · exact Or.inr ⟨hg2, Or.inr h2⟩
        · rintro (h1 | ⟨hg2, (h2 | h2)⟩)
          · exact Or.inl h1
          · exact absurd (h2 ▸ hg2) hg
          · exact Or.inr ⟨hg2, h2⟩

theorem mem_tagSuffix {r w : List String} {wu : MetadataWorkUnit} :
    wu ∈ tagSuffix r w ↔
      ∃ u, u ∈ r ∧ ¬ u ∈ w ∧
        wu = mcpw_as_workunit u (.tagKey ((tag_entity_id u).headD "")) := by
  unfold tagSuffix
  simp only [List.mem_map, mem_sortStr, List.mem_filter, decide_eq_true_eq]
  constructor
  · rintro ⟨u, ⟨hu, hw⟩, rfl⟩
    exact ⟨u, hu, hw, rfl⟩
  · rintro ⟨u, hu, hw, rfl⟩
    exact ⟨u, ⟨hu, hw⟩, rfl⟩

theorem tagSuffix_map_urn (r w : List String) :
    (tagSuffix r w).map MetadataWorkUnit.get_urn
      = sortStr (r.filter (fun u => ¬ u ∈ w)) := by
  unfold tagSuffix
  rw [List.map_map]
  exact List.map_id _

theorem tagsGo_eq :
    ∀ (stream : List MetadataWorkUnit) (referenced withAspects : List String),
      tagsGo referenced withAspects stream
        = stream ++ tagSuffix (referencedTagsAcc referenced stream)
            (tagsWithAspectsAcc withAspects stream)
  | [], referenced, withAspects => by
      simp [tagsGo, referencedTagsAcc, tagsWithAspectsAcc]
  | wu :: rest, referenced, withAspects => by
      rw [tagsGo]
      rw [tagsGo_eq rest]
      rfl

/-- C4: after exhaustion, auto_materialize_referenced_tags emits, in sorted
URN order, exactly one synthetic tag-key workunit for each tag-typed URN that
appears inside some unit's payload but is never the primary-subject URN of any
unit; the tag-key name is parsed from the tag URN's entity-id segment, and a
tag URN that is a primary subject gets no synthetic unit. -/
theorem auto_materialize_referenced_tags_spec (stream : List MetadataWorkUnit) :
    ∃ suffix,
      auto_materialize_referenced_tags stream = stream ++ suffix ∧
      (suffix.map MetadataWorkUnit.get_urn).Sorted (· ≤ ·) ∧
      (suffix.map MetadataWorkUnit.get_urn).Nodup ∧
      (∀ wu ∈ suffix,
        wu.metadata
          = .mcpw wu.get_urn (.tagKey ((tag_entity_id wu.get_urn).headD "")) ∧
        wu.is_primary_source = true) ∧
      (∀ u, (∃ wu ∈ suffix, wu.get_urn = u) ↔
        (guess_entity_type u = "tag" ∧
          (∃ wu ∈ stream, u ∈ list_urns wu.metadata) ∧
          ¬ ∃ wu ∈ stream, wu.get_urn = u)) := by
  refine ⟨tagSuffix (referencedTagsAcc [] stream) (tagsWithAspectsAcc [] stream),
    tagsGo_eq stream [] [], ?_, ?_, ?_, ?_⟩
  · rw [tagSuffix_map_urn]
    exact sortStr_sorted _
  · rw [tagSuffix_map_urn]
    exact sortStr_nodup ((referencedTagsAcc_nodup stream [] List.nodup_nil).filter _)
  · intro wu hwu
    obtain ⟨u, _, _, rfl⟩ := mem_tagSuffix.mp hwu
    exact ⟨rfl, rfl⟩
  · intro u
    constructor
    · rintro ⟨wu, hwu, rfl⟩
      obtain ⟨v, hv, hw, rfl⟩ := mem_tagSuffix.mp hwu
      rw [get_urn_mcpw_as_workunit]
      obtain ⟨wu2, hwu2, hvref⟩ :=
        ((mem_referencedTagsAcc stream [] v).mp hv).resolve_left (by simp)
      obtain ⟨hvl, hvt⟩ := mem_tagRefsOf.mp hvref
      refine ⟨hvt, ⟨wu2, hwu2, hvl⟩, ?_⟩
      rintro ⟨wu3, hwu3, hurn3⟩
      exact hw ((mem_tagsWithAspectsAcc stream [] v).mpr
        (Or.inr ⟨hvt, wu3, hwu3, hurn3⟩))
    · rintro ⟨htag, ⟨wu2, hwu2, hl⟩, hnsubj⟩
      refine ⟨mcpw_as_workunit u (.tagKey ((tag_entity_id u).headD "")), ?_, rfl⟩
      refine mem_tagSuffix.mpr ⟨u, ?_, ?_, rfl⟩
      · exact (mem_referencedTagsAcc stream [] u).mpr
          (Or.inr ⟨wu2, hwu2, mem_tagRefsOf.mpr ⟨hl, htag⟩⟩)
      · intro hmem
        rcases (mem_tagsWithAspectsAcc stream [] u).mp hmem with hin | ⟨_, hsubj⟩
        · simp at hin
        · exact hnsubj hsubj

/-- Witness for C4: the theorem applied at a concrete stream where tag pii is
referenced but never a subject and tag zz is a subject. -/
theorem auto_materialize_referenced_tags_spec_witness :
    ∃ suffix,
      auto_materialize_referenced_tags demoTagStream = demoTagStream ++ suffix ∧
      (suffix.map MetadataWorkUnit.get_urn).Sorted (· ≤ ·) ∧
      (suffix.map MetadataWorkUnit.get_urn).Nodup ∧
      (∀ wu ∈ suffix,
        wu.metadata
          = .mcpw wu.get_urn (.tagKey ((tag_entity_id wu.get_urn).headD "")) ∧
        wu.is_primary_source = true) ∧
      (∀ u, (∃ wu ∈ suffix, wu.get_urn = u) ↔
        (guess_entity_type u = "tag" ∧
          (∃ wu ∈ demoTagStream, u ∈ list_urns wu.metadata) ∧
          ¬ ∃ wu ∈ demoTagStream, wu.get_urn = u)) :=
  auto_materialize_referenced_tags_spec demoTagStream

/-! ### auto_stale_entity_removal lemmas -/

theorem staleGo_eq :
    ∀ (stream : List MetadataWorkUnit) (etf : MetadataWorkUnit → Option String)
      (removals : List MetadataWorkUnit) (calls : StaleHandlerCalls),
      staleGo etf removals calls stream
        = (stream ++ removals,
           { state_calls := calls.state_calls ++ expectedStateCalls etf stream,
             skip_calls := calls.skip_calls ++ expectedSkipCalls stream })
  | [], etf, removals, calls => by
      simp [staleGo, expectedStateCalls, expectedSkipCalls]
  | wu :: rest, etf, removals, calls => by
      rw [staleGo]
      rw [staleGo_eq rest]
      cases hp : wu.is_primary_source with
      | true =>
          cases he : etf wu with
          | none =>
              simp [hp, he, expectedStateCalls, expectedSkipCalls,
                List.filterMap_cons, List.filter_cons]
          | some t =>
              simp [hp, he, expectedStateCalls, expectedSkipCalls,
                List.filterMap_cons, List.filter_cons]
      | false =>
          simp [hp, expectedStateCalls, expectedSkipCalls,
            List.filterMap_cons, List.filter_cons]

/-- C5: auto_stale_entity_removal registers (entity_type, urn) on the
collaborator exactly for the primary-source units whose classification
resolves, registers urn-to-skip exactly for the non-primary-source units, and
yields the collaborator's removal workunits once, after the whole upstream
stream. -/
theorem auto_stale_entity_removal_spec (etf : MetadataWorkUnit → Option String)
    (removals stream : List MetadataWorkUnit) :
    auto_stale_entity_removal etf removals stream
      = (stream ++ removals,
         { state_calls := expectedStateCalls etf stream,
           skip_calls := expectedSkipCalls stream }) ∧
    (∀ t u, (t, u) ∈ expectedStateCalls etf stream ↔
      ∃ wu ∈ stream, wu.is_primary_source = true ∧ etf wu = some t ∧
        wu.get_urn = u) ∧
    (∀ u, u ∈ expectedSkipCalls stream ↔
      ∃ wu ∈ stream, wu.is_primary_source = false ∧ wu.get_urn = u) := by
  refine ⟨?_, ?_, ?_⟩
  · have h := staleGo_eq stream etf removals {}
    unfold auto_stale_entity_removal
    rw [h]
    rfl
  · intro t u
    unfold expectedStateCalls
    rw [List.mem_filterMap]
    constructor
    · rintro ⟨wu, hwu, hf⟩
      by_cases hp : wu.is_primary_source
      · rw [if_pos hp] at hf
        cases he : etf wu with
        | none => rw [he] at hf; cases hf
        | some t2 =>
            rw [he] at hf
            have hf2 : (t2, wu.get_urn) = (t, u) := by simpa using hf
            have ht : t2 = t := congrArg Prod.fst hf2
            have hu : wu.get_urn = u := congrArg Prod.snd hf2
            exact ⟨wu, hwu, hp, by rw [he, ht], hu⟩
      · rw [if_neg hp] at hf
        cases hf
    · rintro ⟨wu, hwu, hp, he, hu⟩
      exact ⟨wu, hwu, by rw [if_pos hp, he, hu]; rfl⟩
  · intro u
    unfold expectedSkipCalls
    rw [List.mem_map]
    constructor
    · rintro ⟨wu, hwu, rfl⟩
      rw [List.mem_filter] at hwu
      refine ⟨wu, hwu.1, ?_, rfl⟩
      have := hwu.2
      simp only [decide_eq_true_eq] at this
      simpa using this
    · rintro ⟨wu, hwu, hp, rfl⟩
      refine ⟨wu, List.mem_filter.mpr ⟨hwu, ?_⟩, rfl⟩
      simp [hp]

/-- Witness for C5: the theorem applied at a concrete stream with both
primary-source and non-primary-source units and concrete removal units. -/
theorem auto_stale_entity_removal_spec_witness :
    auto_stale_entity_removal _default_entity_type_fn demoRemovals demoStatusStream
      = (demoStatusStream ++ demoRemovals,
         { state_calls := expectedStateCalls _default_entity_type_fn demoStatusStream,
           skip_calls := expectedSkipCalls demoStatusStream }) ∧
    (∀ t u, (t, u) ∈ expectedStateCalls _default_entity_type_fn demoStatusStream ↔
      ∃ wu ∈ demoStatusStream, wu.is_primary_source = true ∧
        _default_entity_type_fn wu = some t ∧ wu.get_urn = u) ∧
    (∀ u, u ∈ expectedSkipCalls demoStatusStream ↔
      ∃ wu ∈ demoStatusStream, wu.is_primary_source = false ∧ wu.get_urn = u) :=
  auto_stale_entity_removal_spec _default_entity_type_fn demoRemovals demoStatusStream

/-! ### auto_workunit_reporter and auto_browse_path_v2 structural lemmas -/

theorem reporterGo_eq :
    ∀ (stream reported : List MetadataWorkUnit),
      reporterGo reported stream = (stream, reported ++ stream)
  | [], reported => by simp [reporterGo]
  | wu :: rest, reported => by
      rw [reporterGo, reporterGo_eq rest]
      simp

theorem get_urn_browseV2Unit (n : String) (p : List String) :
    (browseV2Unit n p).get_urn = n := rfl

theorem get_urn_legacyV2Unit (u : String) (s : List String) :
    (legacyV2Unit u s).get_urn = u := rfl

theorem browseV2Unit_inj {n1 n2 : String} {p1 p2 : List String}
    (h : browseV2Unit n1 p1 = browseV2Unit n2 p2) : n1 = n2 ∧ p1 = p2 := by
  unfold browseV2Unit mcpw_as_workunit at h
  rw [MetadataWorkUnit.mk.injEq] at h
  obtain ⟨-, hm, -⟩ := h
  rw [WUMetadata.mcpw.injEq] at hm
  obtain ⟨hn, ha⟩ := hm
  rw [Aspect.browsePathsV2.injEq] at ha
  refine ⟨hn, ?_⟩
  have hinj : Function.Injective
      (fun u : String => BrowsePathEntry.mk u (some u)) := by
    intro a b hab
    exact congrArg BrowsePathEntry.id hab
  exact List.map_injective_iff.mpr hinj ha

theorem lookup_some_mem_keys {α : Type} :
    ∀ (m : List (String × α)) (k : String) (v : α),
      m.lookup k = some v → k ∈ m.map Prod.fst
  | [], k, v, h => by cases h
  | (k1, v1) :: rest, k, v, h => by
      rw [lookup_cons] at h
      by_cases hk : k = k1
      · simp [hk]
      · rw [if_neg hk] at h
        simp [lookup_some_mem_keys rest k v h]

theorem bpGo_eq :
    ∀ (stream : List MetadataWorkUnit) (fuel : Nat) (dd : List String)
      (st : BPState),
      bpGo fuel dd st stream
        = stream ++ bpFinalize fuel (stream.foldl (bpStep dd) st)
  | [], fuel, dd, st => by simp [bpGo]
  | wu :: rest, fuel, dd, st => by
      rw [bpGo, bpGo_eq rest]
      simp

theorem auto_browse_path_v2_eq (fuel : Nat) (dd : List String)
    (stream : List MetadataWorkUnit) :
    auto_browse_path_v2 fuel dd stream
      = stream ++ (bpLoopResult fuel dd stream).1
          ++ bpLegacyEmits fuel dd stream := by
  unfold auto_browse_path_v2
  rw [bpGo_eq, List.append_assoc]
  rfl

theorem bpEmit_pos {ig : List String} {node : String} {pr : List String}
    {res : List MetadataWorkUnit × List String × Bool} (hig : node ∈ ig) :
    bpEmit ig node pr res = res := by
  unfold bpEmit
  rw [if_pos hig]

theorem bpEmit_neg {ig : List String} {node : String} {pr : List String}
    {res : List MetadataWorkUnit × List String × Bool} (hig : ¬ node ∈ ig) :
    bpEmit ig node pr res
      = (browseV2Unit node pr :: res.1, node :: res.2.1, res.2.2) := by
  unfold bpEmit
  rw [if_neg hig]

theorem bpLoop_zero (pm : List (String × String))
    (ch : List (String × List String)) (ig : List String)
    (nodes : List String) (paths : List (String × List String)) :
    bpLoop pm ch ig 0 nodes paths = ([], [], nodes.isEmpty) := rfl

theorem bpLoop_nil (pm : List (String × String))
    (ch : List (String × List String)) (ig : List String) (fuel : Nat)
    (paths : List (String × List String)) :
    bpLoop pm ch ig (fuel + 1) [] paths = ([], [], true) := rfl

theorem bpLoop_cons_root (pm : List (String × String))
    (ch : List (String × List String)) (ig : List String) (fuel : Nat)
    (node : String) (rest : List String) (paths : List (String × List String))
    (hpm : pm.lookup node = none) :
    bpLoop pm ch ig (fuel + 1) (node :: rest) paths
      = bpEmit ig node []
          (bpLoop pm ch ig fuel (insertAllNew rest ((ch.lookup node).getD []))
            (assocUpd paths node [])) := by
  rw [bpLoop, hpm]

theorem bpLoop_cons_err (pm : List (String × String))
    (ch : List (String × List String)) (ig : List String) (fuel : Nat)
    (node : String) (rest : List String) (paths : List (String × List String))
    (parent : String) (hpm : pm.lookup node = some parent)
    (hlk : paths.lookup parent = none) :
    bpLoop pm ch ig (fuel + 1) (node :: rest) paths = ([], [], false) := by
  simp only [bpLoop, hpm, hlk]

theorem bpLoop_cons_parent (pm : List (String × String))
    (ch : List (String × List String)) (ig : List String) (fuel : Nat)
    (node : String) (rest : List String) (paths : List (String × List String))
    (parent : String) (pp : List String) (hpm : pm.lookup node = some parent)
    (hlk : paths.lookup parent = some pp) :
    bpLoop pm ch ig (fuel + 1) (node :: rest) paths
      = bpEmit ig node (pp ++ [parent])
          (bpLoop pm ch ig fuel (insertAllNew rest ((ch.lookup node).getD []))
            (assocUpd paths node (pp ++ [parent]))) := by
  simp only [bpLoop, hpm, hlk]

theorem bpLoop_emits_form (pm : List (String × String))
    (ch : List (String × List String)) (ig : List String) :
    ∀ (fuel : Nat) (nodes : List String) (paths : List (String × List String))
      (wu : MetadataWorkUnit), wu ∈ (bpLoop pm ch ig fuel nodes paths).1 →
      ∃ n pr, wu = browseV2Unit n pr ∧ ¬ n ∈ ig
  | 0, nodes, paths, wu, h => by rw [bpLoop_zero] at h; cases h
  | fuel + 1, [], paths, wu, h => by rw [bpLoop_nil] at h; cases h
  | fuel + 1, node :: rest, paths, wu, h => by
      cases hpm : pm.lookup node with
      | none =>
          rw [bpLoop_cons_root pm ch ig fuel node rest paths hpm] at h
          by_cases hig : node ∈ ig
          · rw [bpEmit_pos hig] at h
            exact bpLoop_emits_form pm ch ig fuel _ _ wu h
          · rw [bpEmit_neg hig] at h
            rcases List.mem_cons.mp h with rfl | h2
            · exact ⟨node, [], rfl, hig⟩
            · exact bpLoop_emits_form pm ch ig fuel _ _ wu h2
      | some parent =>
          cases hlk : paths.lookup parent with
          | none =>
              rw [bpLoop_cons_err pm ch ig fuel node rest paths parent hpm hlk] at h
              cases h
          | some pp =>
              rw [bpLoop_cons_parent pm ch ig fuel node rest paths parent pp hpm hlk] at h
              by_cases hig : node ∈ ig
              · rw [bpEmit_pos hig] at h
                exact bpLoop_emits_form pm ch ig fuel _ _ wu h
              · rw [bpEmit_neg hig] at h
                rcases List.mem_cons.mp h with rfl | h2
                · exact ⟨node, pp ++ [parent], rfl, hig⟩
                · exact bpLoop_emits_form pm ch ig fuel _ _ wu h2

theorem bpLoop_processed_iff (pm : List (String × String))
    (ch : List (String × List String)) (ig : List String) :
    ∀ (fuel : Nat) (nodes : List String) (paths : List (String × List String))
      (u : String),
      u ∈ (bpLoop pm ch ig fuel nodes paths).2.1 ↔
        ∃ pr, browseV2Unit u pr ∈ (bpLoop pm ch ig fuel nodes paths).1
  | 0, nodes, paths, u => by rw [bpLoop_zero]; simp
  | fuel + 1, [], paths, u => by rw [bpLoop_nil]; simp
  | fuel + 1, node :: rest, paths, u => by
      cases hpm : pm.lookup node with
      | none =>
          rw [bpLoop_cons_root pm ch ig fuel node rest paths hpm]
          by_cases hig : node ∈ ig
          · rw [bpEmit_pos hig]
            exact bpLoop_processed_iff pm ch ig fuel _ _ u
          · rw [bpEmit_neg hig]
            simp only [List.mem_cons]
            constructor
            · rintro (rfl | h2)
              · exact ⟨[], Or.inl rfl⟩
              · obtain ⟨pr, hpr⟩ :=
                  (bpLoop_processed_iff pm ch ig fuel _ _ u).mp h2
                exact ⟨pr, Or.inr hpr⟩
            · rintro ⟨pr, (heq | h2)⟩
              · exact Or.inl (browseV2Unit_inj heq.symm).1.symm
              · exact Or.inr ((bpLoop_processed_iff pm ch ig fuel _ _ u).mpr ⟨pr, h2⟩)
      | some parent =>
          cases hlk : paths.lookup parent with
          | none =>
              rw [bpLoop_cons_err pm ch ig fuel node rest paths parent hpm hlk]
              simp
          | some pp =>
              rw [bpLoop_cons_parent pm ch ig fuel node rest paths parent pp hpm hlk]
              by_cases hig : node ∈ ig
              · rw [bpEmit_pos hig]
                exact bpLoop_processed_iff pm ch ig fuel _ _ u
              · rw [bpEmit_neg hig]
                simp only [List.mem_cons]
                constructor
                · rintro (rfl | h2)
                  · exact ⟨pp ++ [parent], Or.inl rfl⟩
                  · obtain ⟨pr, hpr⟩ :=
                      (bpLoop_processed_iff pm ch ig fuel _ _ u).mp h2
                    exact ⟨pr, Or.inr hpr⟩
                · rintro ⟨pr, (heq | h2)⟩
                  · exact Or.inl (browseV2Unit_inj heq.symm).1.symm
                  · exact Or.inr ((bpLoop_processed_iff pm ch ig fuel _ _ u).mpr ⟨pr, h2⟩)

theorem parentStep_iff {pm : List (String × String)} {m a : String} :
    parentStep pm m a ↔ pm.lookup m = some a := Iff.rfl

theorem bpLoop_root_emitted (pm : List (String × String))
    (ch : List (String × List String)) (ig : List String) :
    ∀ (fuel : Nat) (nodes : List String) (paths : List (String × List String)),
      (bpLoop pm ch ig fuel nodes paths).2.2 = true →
      ∀ u ∈ nodes, pm.lookup u = none → ¬ u ∈ ig →
      browseV2Unit u [] ∈ (bpLoop pm ch ig fuel nodes paths).1
  | 0, nodes, paths, hok, u, hu, _, _ => by
      rw [bpLoop_zero] at hok
      rw [List.isEmpty_iff] at hok
      subst hok
      cases hu
  | fuel + 1, [], paths, _, u, hu, _, _ => by cases hu
  | fuel + 1, node :: rest, paths, hok, u, hu, hpmu, hig => by
      cases hpm : pm.lookup node with
      | none =>
          rw [bpLoop_cons_root pm ch ig fuel node rest paths hpm] at hok ⊢
          by_cases hnig : node ∈ ig
          · rw [bpEmit_pos hnig] at hok ⊢
            rcases List.mem_cons.mp hu with rfl | hur
            · exact absurd hnig hig
            · exact bpLoop_root_emitted pm ch ig fuel _ _ hok u
                ((mem_insertAllNew _ rest u).mpr (Or.inl hur)) hpmu hig
          · rw [bpEmit_neg hnig] at hok ⊢
            rcases List.mem_cons.mp hu with rfl | hur
            · exact List.mem_cons_self _ _
            · exact List.mem_cons_of_mem _
                (bpLoop_root_emitted pm ch ig fuel _ _ hok u
                  ((mem_insertAllNew _ rest u).mpr (Or.inl hur)) hpmu hig)
      | some parent =>
          cases hlk : paths.lookup parent with
          | none =>
              rw [bpLoop_cons_err pm ch ig fuel node rest paths parent hpm hlk]
                at hok
              cases hok
          | some pp =>
              rw [bpLoop_cons_parent pm ch ig fuel node rest paths parent pp
                hpm hlk] at hok ⊢
              by_cases hnig : node ∈ ig
              · rw [bpEmit_pos hnig] at hok ⊢
                rcases List.mem_cons.mp hu with rfl | hur
                · rw [hpm] at hpmu; cases hpmu
                · exact bpLoop_root_emitted pm ch ig fuel _ _ hok u
                    ((mem_insertAllNew _ rest u).mpr (Or.inl hur)) hpmu hig
              · rw [bpEmit_neg hnig] at hok ⊢
                rcases List.mem_cons.mp hu with rfl | hur
                · rw [hpm] at hpmu; cases hpmu
                · exact List.mem_cons_of_mem _
                    (bpLoop_root_emitted pm ch ig fuel _ _ hok u
                      ((mem_insertAllNew _ rest u).mpr (Or.inl hur)) hpmu hig)

theorem bpLoop_parent_paths (pm : List (String × String))
    (ch : List (String × List String)) (ig : List String) :
    ∀ (fuel : Nat) (nodes : List String) (paths : List (String × List String))
      (l1 : List MetadataWorkUnit) (m : String) (pr : List String)
      (l2 : List MetadataWorkUnit),
      (bpLoop pm ch ig fuel nodes paths).1 = l1 ++ browseV2Unit m pr :: l2 →
      (pm.lookup m = none → pr = []) ∧
      (∀ p, pm.lookup m = some p → ∃ pp, pr = pp ++ [p] ∧
        (¬ p ∈ ig →
          (browseV2Unit p pp ∈ l1 ∨ paths.lookup p = some pp)))
  | 0, nodes, paths, l1, m, pr, l2, h => by
      rw [bpLoop_zero] at h
      cases l1 with
      | nil => exact List.noConfusion h
      | cons a as => exact List.noConfusion h
  | fuel + 1, [], paths, l1, m, pr, l2, h => by
      rw [bpLoop_nil] at h
      cases l1 with
      | nil => exact List.noConfusion h
      | cons a as => exact List.noConfusion h
  | fuel + 1, node :: rest, paths, l1, m, pr, l2, h => by
      cases hpm : pm.lookup node with
      | none =>
          rw [bpLoop_cons_root pm ch ig fuel node rest paths hpm] at h
          by_cases hnig : node ∈ ig
          · rw [bpEmit_pos hnig] at h
            obtain ⟨hroot, hpar⟩ := bpLoop_parent_paths pm ch ig fuel _ _ l1 m pr l2 h
            refine ⟨hroot, ?_⟩
            intro p hp
            obtain ⟨pp, hpr, hmem⟩ := hpar p hp
            refine ⟨pp, hpr, ?_⟩
            intro hpig
            rcases hmem hpig with hl | hlkp
            · exact Or.inl hl
            · have hpnode : ¬ p = node := fun heq => hpig (heq ▸ hnig)
              rw [lookup_assocUpd, if_neg hpnode] at hlkp
              exact Or.inr hlkp
          · rw [bpEmit_neg hnig] at h
            cases l1 with
            | nil =>
                have h1 : browseV2Unit node [] = browseV2Unit m pr :=
                  (List.cons.injEq _ _ _ _ ▸ h).1
                obtain ⟨rfl, rfl⟩ := browseV2Unit_inj h1.symm
                refine ⟨fun _ => rfl, ?_⟩
                intro p hp
                rw [hpm] at hp
                cases hp
            | cons a l1t =>
                have h1 : a = browseV2Unit node [] :=
                  ((List.cons.injEq _ _ _ _ ▸ h).1).symm
                have h2 : (bpLoop pm ch ig fuel
                    (insertAllNew rest ((ch.lookup node).getD []))
                    (assocUpd paths node [])).1
                      = l1t ++ browseV2Unit m pr :: l2 :=
                  (List.cons.injEq _ _ _ _ ▸ h).2
                obtain ⟨hroot, hpar⟩ :=
                  bpLoop_parent_paths pm ch ig fuel _ _ l1t m pr l2 h2
                refine ⟨hroot, ?_⟩
                intro p hp
                obtain ⟨pp, hpr, hmem⟩ := hpar p hp
                refine ⟨pp, hpr, ?_⟩
                intro hpig
                rcases hmem hpig with hl | hlkp
                · exact Or.inl (List.mem_cons_of_mem _ hl)
                · by_cases hpnode : p = node
                  · subst hpnode
                    rw [lookup_assocUpd, if_pos rfl] at hlkp
                    obtain rfl := Option.some.inj hlkp
                    rw [h1]
                    exact Or.inl (List.mem_cons_self _ _)
                  · rw [lookup_assocUpd, if_neg hpnode] at hlkp
                    exact Or.inr hlkp
      | some parent =>
          cases hlk : paths.lookup parent with
          | none =>
              rw [bpLoop_cons_err pm ch ig fuel node rest paths parent hpm hlk]
                at h
              cases l1 with
              | nil => exact List.noConfusion h
              | cons a as => exact List.noConfusion h
          | some pp0 =>
              rw [bpLoop_cons_parent pm ch ig fuel node rest paths parent pp0
                hpm hlk] at h
              by_cases hnig : node ∈ ig
              · rw [bpEmit_pos hnig] at h
                obtain ⟨hroot, hpar⟩ := bpLoop_parent_paths pm ch ig fuel _ _ l1 m pr l2 h
                refine ⟨hroot, ?_⟩
                intro p hp
                obtain ⟨pp, hpr, hmem⟩ := hpar p hp
                refine ⟨pp, hpr, ?_⟩
                intro hpig
                rcases hmem hpig with hl | hlkp
                · exact Or.inl hl
                · have hpnode : ¬ p = node := fun heq => hpig (heq ▸ hnig)
                  rw [lookup_assocUpd, if_neg hpnode] at hlkp
                  exact Or.inr hlkp
              · rw [bpEmit_neg hnig] at h
                cases l1 with
                | nil =>
                    have h1 : browseV2Unit node (pp0 ++ [parent])
                        = browseV2Unit m pr :=
                      (List.cons.injEq _ _ _ _ ▸ h).1
                    obtain ⟨rfl, rfl⟩ := browseV2Unit_inj h1.symm
                    refine ⟨?_, ?_⟩
                    · intro h0
                      rw [hpm] at h0
                      cases h0
                    · intro p hp
                      rw [hpm] at hp
                      obtain rfl : parent = p := Option.some.inj hp
                      exact ⟨pp0, rfl, fun _ => Or.inr hlk⟩
                | cons a l1t =>
                    have h1 : a = browseV2Unit node (pp0 ++ [parent]) :=
                      ((List.cons.injEq _ _ _ _ ▸ h).1).symm
                    have h2 : (bpLoop pm ch ig fuel
                        (insertAllNew rest ((ch.lookup node).getD []))
                        (assocUpd paths node (pp0 ++ [parent]))).1
                          = l1t ++ browseV2Unit m pr :: l2 :=
                      (List.cons.injEq _ _ _ _ ▸ h).2
                    obtain ⟨hroot, hpar⟩ :=
                      bpLoop_parent_paths pm ch ig fuel _ _ l1t m pr l2 h2
                    refine ⟨hroot, ?_⟩
                    intro p hp
                    obtain ⟨pp, hpr, hmem⟩ := hpar p hp
                    refine ⟨pp, hpr, ?_⟩
                    intro hpig
                    rcases hmem hpig with hl | hlkp
                    · exact Or.inl (List.mem_cons_of_mem _ hl)
                    · by_cases hpnode : p = node
                      · subst hpnode
                        rw [lookup_assocUpd, if_pos rfl] at hlkp
                        obtain rfl := Option.some.inj hlkp
                        rw [h1]
                        exact Or.inl (List.mem_cons_self _ _)
                      · rw [lookup_assocUpd, if_neg hpnode] at hlkp
                        exact Or.inr hlkp

theorem ancestor_lookup_closed {pm : List (String × String)}
    {paths : List (String × List String)}
    (hclosed : ∀ n a, (paths.lookup n).isSome → pm.lookup n = some a →
      (paths.lookup a).isSome) :
    ∀ {p a : String}, isAncestor pm p a → (paths.lookup p).isSome →
      (paths.lookup a).isSome := by
  intro p a hanc
  induction hanc with
  | parent m b hstep =>
      intro hm
      exact hclosed m b hm hstep
  | step m q b hstep _ ih =>
      intro hm
      exact ih (hclosed m q hm hstep)

theorem bpLoop_ancestor_before (pm : List (String × String))
    (ch : List (String × List String)) (ig : List String) :
    ∀ (fuel : Nat) (nodes : List String) (paths : List (String × List String)),
      (∀ n a, (paths.lookup n).isSome → pm.lookup n = some a →
        (paths.lookup a).isSome) →
      ∀ (l1 : List MetadataWorkUnit) (m : String) (pr : List String)
        (l2 : List MetadataWorkUnit),
        (bpLoop pm ch ig fuel nodes paths).1 = l1 ++ browseV2Unit m pr :: l2 →
        ∀ a, isAncestor pm m a → ¬ a ∈ ig →
          (∃ pp, browseV2Unit a pp ∈ l1) ∨ (paths.lookup a).isSome
  | 0, nodes, paths, _, l1, m, pr, l2, h => by
      rw [bpLoop_zero] at h
      cases l1 with
      | nil => exact List.noConfusion h
      | cons x xs => exact List.noConfusion h
  | fuel + 1, [], paths, _, l1, m, pr, l2, h => by
      rw [bpLoop_nil] at h
      cases l1 with
      | nil => exact List.noConfusion h
      | cons x xs => exact List.noConfusion h
  | fuel + 1, node :: rest, paths, hclosed, l1, m, pr, l2, h => by
      cases hpm : pm.lookup node with
      | none =>
          rw [bpLoop_cons_root pm ch ig fuel node rest paths hpm] at h
          have hclosed2 : ∀ n a,
              ((assocUpd paths node []).lookup n).isSome →
              pm.lookup n = some a →
              ((assocUpd paths node []).lookup a).isSome := by
            intro n a hn hna
            by_cases hn2 : n = node
            · subst hn2
              rw [hpm] at hna
              cases hna
            · rw [lookup_assocUpd, if_neg hn2] at hn
              have ha := hclosed n a hn hna
              rw [lookup_assocUpd]
              by_cases ha2 : a = node
              · rw [if_pos ha2]
                rfl
              · rw [if_neg ha2]
                exact ha
          by_cases hnig : node ∈ ig
          · rw [bpEmit_pos hnig] at h
            intro a hanc haig
            rcases bpLoop_ancestor_before pm ch ig fuel _ _ hclosed2
                l1 m pr l2 h a hanc haig with hl | hs
            · exact Or.inl hl
            · have hanode : ¬ a = node := fun heq => haig (heq ▸ hnig)
              rw [lookup_assocUpd, if_neg hanode] at hs
              exact Or.inr hs
          · rw [bpEmit_neg hnig] at h
            cases l1 with
            | nil =>
                have h1 : browseV2Unit node [] = browseV2Unit m pr :=
                  (List.cons.injEq _ _ _ _ ▸ h).1
                obtain ⟨rfl, rfl⟩ := browseV2Unit_inj h1.symm
                intro a hanc _
                cases hanc with
                | parent _ _ hstep =>
                    rw [parentStep_iff, hpm] at hstep
                    cases hstep
                | step _ p _ hstep _ =>
                    rw [parentStep_iff, hpm] at hstep
                    cases hstep
            | cons x l1t =>
                have h1 : x = browseV2Unit node [] :=
                  ((List.cons.injEq _ _ _ _ ▸ h).1).symm
                have h2 : (bpLoop pm ch ig fuel
                    (insertAllNew rest ((ch.lookup node).getD []))
                    (assocUpd paths node [])).1
                      = l1t ++ browseV2Unit m pr :: l2 :=
                  (List.cons.injEq _ _ _ _ ▸ h).2
                intro a hanc haig
                rcases bpLoop_ancestor_before pm ch ig fuel _ _ hclosed2
                    l1t m pr l2 h2 a hanc haig with hl | hs
                · obtain ⟨pp, hpp⟩ := hl
                  exact Or.inl ⟨pp, List.mem_cons_of_mem _ hpp⟩
                · by_cases ha2 : a = node
                  · subst ha2
                    refine Or.inl ⟨[], ?_⟩
                    rw [h1]
                    exact List.mem_cons_self _ _
                  · rw [lookup_assocUpd, if_neg ha2] at hs
                    exact Or.inr hs
      | some parent =>
          cases hlk : paths.lookup parent with
          | none =>
              rw [bpLoop_cons_err pm ch ig fuel node rest paths parent hpm hlk]
                at h
              cases l1 with
              | nil => exact List.noConfusion h
              | cons x xs => exact List.noConfusion h
          | some pp0 =>
              rw [bpLoop_cons_parent pm ch ig fuel node rest paths parent pp0
                hpm hlk] at h
              have hclosed2 : ∀ n a,
                  ((assocUpd paths node (pp0 ++ [parent])).lookup n).isSome →
                  pm.lookup n = some a →
                  ((assocUpd paths node (pp0 ++ [parent])).lookup a).isSome := by
                intro n a hn hna
                rw [lookup_assocUpd]
                by_cases ha2 : a = node
                · rw [if_pos ha2]
                  rfl
                · rw [if_neg ha2]
                  by_cases hn2 : n = node
                  · subst hn2
                    rw [hpm] at hna
                    obtain rfl := Option.some.inj hna
                    rw [hlk]
                    rfl
                  · rw [lookup_assocUpd, if_neg hn2] at hn
                    exact hclosed n a hn hna
              by_cases hnig : node ∈ ig
              · rw [bpEmit_pos hnig] at h
                intro a hanc haig
                rcases bpLoop_ancestor_before pm ch ig fuel _ _ hclosed2
                    l1 m pr l2 h a hanc haig with hl | hs
                · exact Or.inl hl
                · have hanode : ¬ a = node := fun heq => haig (heq ▸ hnig)
                  rw [lookup_assocUpd, if_neg hanode] at hs
                  exact Or.inr hs
              · rw [bpEmit_neg hnig] at h
                cases l1 with
                | nil =>
                    have h1 : browseV2Unit node (pp0 ++ [parent])
                        = browseV2Unit m pr :=
                      (List.cons.injEq _ _ _ _ ▸ h).1
                    obtain ⟨rfl, rfl⟩ := browseV2Unit_inj h1.symm
                    intro a hanc _
                    cases hanc with
                    | parent _ _ hstep =>
                        rw [parentStep_iff, hpm] at hstep
                        obtain rfl := Option.some.inj hstep
                        refine Or.inr ?_
                        rw [hlk]
                        rfl
                    | step _ p _ hstep hanc2 =>
                        rw [parentStep_iff, hpm] at hstep
                        obtain rfl := Option.some.inj hstep
                        refine Or.inr ?_
                        exact ancestor_lookup_closed hclosed hanc2 (by rw [hlk]; rfl)
                | cons x l1t =>
                    have h1 : x = browseV2Unit node (pp0 ++ [parent]) :=
                      ((List.cons.injEq _ _ _ _ ▸ h).1).symm
                    have h2 : (bpLoop pm ch ig fuel
                        (insertAllNew rest ((ch.lookup node).getD []))
                        (assocUpd paths node (pp0 ++ [parent]))).1
                          = l1t ++ browseV2Unit m pr :: l2 :=
                      (List.cons.injEq _ _ _ _ ▸ h).2
                    intro a hanc haig
                    rcases bpLoop_ancestor_before pm ch ig fuel _ _ hclosed2
                        l1t m pr l2 h2 a hanc haig with hl | hs
                    · obtain ⟨pp, hpp⟩ := hl
                      exact Or.inl ⟨pp, List.mem_cons_of_mem _ hpp⟩
                    · by_cases ha2 : a = node
                      · subst ha2
                        refine Or.inl ⟨pp0 ++ [parent], ?_⟩
                        rw [h1]
                        exact List.mem_cons_self _ _
                      · rw [lookup_assocUpd, if_neg ha2] at hs
                        exact Or.inr hs

/-- C2: every container URN with no recorded parent (a root) gets an emitted
v2 browse-path workunit with an empty path; every emitted node with a
recorded parent has its path equal to its parent's (previously emitted) path
with the parent URN appended; and on the concrete chain A→B→C with C the
root, the emitted path for A is [C, B], each entry carrying id and urn equal
to the ancestor URN. -/
theorem auto_browse_path_v2_root_and_parent (fuel : Nat) (dd : List String)
    (stream : List MetadataWorkUnit)
    (hok : (bpLoopResult fuel dd stream).2.2 = true) :
    (∀ u, u ∈ (bpState dd stream).container_urns →
      (bpState dd stream).parent_container_map.lookup u = none →
      ¬ u ∈ (bpState dd stream).ignore_urns →
      browseV2Unit u [] ∈ auto_browse_path_v2 fuel dd stream) ∧
    (∀ l1 m pr l2,
      (bpLoopResult fuel dd stream).1 = l1 ++ browseV2Unit m pr :: l2 →
      ((bpState dd stream).parent_container_map.lookup m = none → pr = []) ∧
      (∀ p, (bpState dd stream).parent_container_map.lookup m = some p →
        ∃ pp, pr = pp ++ [p] ∧
          (¬ p ∈ (bpState dd stream).ignore_urns →
            browseV2Unit p pp ∈ l1))) ∧
    auto_browse_path_v2 9 [] demoChainStream
      = demoChainStream ++
        [browseV2Unit "urn:li:container:C" [],
         browseV2Unit "urn:li:container:B" ["urn:li:container:C"],
         browseV2Unit "urn:li:container:A"
           ["urn:li:container:C", "urn:li:container:B"]] := by
  refine ⟨?_, ?_, rfl⟩
  · intro u hc hlkp hig
    have hru : u ∈ bpRoots (bpState dd stream) := by
      rw [bpRoots, List.mem_filter]
      refine ⟨hc, ?_⟩
      rw [hlkp]
      rfl
    have hmem : browseV2Unit u [] ∈ (bpLoopResult fuel dd stream).1 :=
      bpLoop_root_emitted (bpState dd stream).parent_container_map
        (bpState dd stream).children (bpState dd stream).ignore_urns
        fuel (bpRoots (bpState dd stream)) [] hok u hru hlkp hig
    rw [auto_browse_path_v2_eq]
    exact List.mem_append.mpr (Or.inl (List.mem_append.mpr (Or.inr hmem)))
  · intro l1 m pr l2 h
    obtain ⟨hroot, hpar⟩ :=
      bpLoop_parent_paths (bpState dd stream).parent_container_map
        (bpState dd stream).children (bpState dd stream).ignore_urns
        fuel (bpRoots (bpState dd stream)) [] l1 m pr l2 h
    refine ⟨hroot, ?_⟩
    intro p hp
    obtain ⟨pp, hpr, hmem⟩ := hpar p hp
    refine ⟨pp, hpr, ?_⟩
    intro hpig
    rcases hmem hpig with hl | hlkp
    · exact hl
    · simp at hlkp

/-- Witness for C2 at the concrete chain A→B→C (C root), work-list loop
completed. -/
theorem auto_browse_path_v2_root_and_parent_witness :
    (bpLoopResult 9 [] demoChainStream).2.2 = true ∧
    ((∀ u, u ∈ (bpState [] demoChainStream).container_urns →
      (bpState [] demoChainStream).parent_container_map.lookup u = none →
      ¬ u ∈ (bpState [] demoChainStream).ignore_urns →
      browseV2Unit u [] ∈ auto_browse_path_v2 9 [] demoChainStream) ∧
    (∀ l1 m pr l2,
      (bpLoopResult 9 [] demoChainStream).1 = l1 ++ browseV2Unit m pr :: l2 →
      ((bpState [] demoChainStream).parent_container_map.lookup m = none →
        pr = []) ∧
      (∀ p, (bpState [] demoChainStream).parent_container_map.lookup m
          = some p →
        ∃ pp, pr = pp ++ [p] ∧
          (¬ p ∈ (bpState [] demoChainStream).ignore_urns →
            browseV2Unit p pp ∈ l1))) ∧
    auto_browse_path_v2 9 [] demoChainStream
      = demoChainStream ++
        [browseV2Unit "urn:li:container:C" [],
         browseV2Unit "urn:li:container:B" ["urn:li:container:C"],
         browseV2Unit "urn:li:container:A"
           ["urn:li:container:C", "urn:li:container:B"]]) :=
  ⟨rfl, auto_browse_path_v2_root_and_parent 9 [] demoChainStream rfl⟩

/-- C3: an entity whose only recorded hierarchy information is a legacy v1
browse-path aspect gets a v2 workunit built from the first path string
(outer slashes stripped, split on "/", drop_dirs segments removed, id-only
entries); an URN processed through the container hierarchy or already
carrying a v2 aspect never gets a legacy-derived unit. -/
theorem auto_browse_path_v2_legacy_fallback :
    (∀ (fuel : Nat) (dd : List String) (stream : List MetadataWorkUnit)
      (u : String) (segs : List String),
      (bpLoopResult fuel dd stream).2.2 = true →
      (bpState dd stream).legacy_browse_paths.lookup u = some segs →
      ¬ u ∈ (bpLoopResult fuel dd stream).2.1 →
      ¬ u ∈ (bpState dd stream).ignore_urns →
      legacyV2Unit u segs ∈ auto_browse_path_v2 fuel dd stream) ∧
    (∀ (fuel : Nat) (dd : List String) (stream : List MetadataWorkUnit)
      (wu : MetadataWorkUnit), wu ∈ bpLegacyEmits fuel dd stream →
      (¬ ∃ pr, browseV2Unit wu.get_urn pr ∈ (bpLoopResult fuel dd stream).1) ∧
      ¬ wu.get_urn ∈ (bpState dd stream).ignore_urns) ∧
    auto_browse_path_v2 9 ["b"] demoLegacyStream
      = demoLegacyStream ++ [legacyV2Unit "urn:li:dataset:D" ["a", "c"]] := by
  refine ⟨?_, ?_, rfl⟩
  · intro fuel dd stream u segs hok hlk hnp hni
    rw [auto_browse_path_v2_eq]
    refine List.mem_append.mpr (Or.inr ?_)
    unfold bpLegacyEmits
    rw [if_pos hok]
    refine List.mem_map.mpr ⟨u, ?_, ?_⟩
    · rw [List.mem_filter]
      refine ⟨lookup_some_mem_keys _ u segs hlk, ?_⟩
      simp [hnp, hni]
    · rw [hlk]
      rfl
  · intro fuel dd stream wu hwu
    unfold bpLegacyEmits at hwu
    by_cases hok : (bpLoopResult fuel dd stream).2.2 = true
    · rw [if_pos hok] at hwu
      obtain ⟨u, hu, rfl⟩ := List.mem_map.mp hwu
      rw [List.mem_filter] at hu
      have hcond := hu.2
      simp only [decide_eq_true_eq] at hcond
      rw [get_urn_legacyV2Unit]
      refine ⟨?_, hcond.2⟩
      intro ⟨pr, hpr⟩
      exact hcond.1 ((bpLoop_processed_iff _ _ _ fuel _ _ u).mpr ⟨pr, hpr⟩)
    · rw [if_neg hok] at hwu
      cases hwu

/-- Witness for C3: the legacy fallback applied at the concrete one-unit
stream whose dataset carries the legacy paths ["/a/b/c", "/z/z2"] with
drop_dirs = ["b"]. -/
theorem auto_browse_path_v2_legacy_fallback_witness :
    (bpLoopResult 9 ["b"] demoLegacyStream).2.2 = true ∧
    (bpState ["b"] demoLegacyStream).legacy_browse_paths.lookup
        "urn:li:dataset:D" = some ["a", "c"] ∧
    ¬ "urn:li:dataset:D" ∈ (bpLoopResult 9 ["b"] demoLegacyStream).2.1 ∧
    ¬ "urn:li:dataset:D" ∈ (bpState ["b"] demoLegacyStream).ignore_urns ∧
    legacyV2Unit "urn:li:dataset:D" ["a", "c"]
      ∈ auto_browse_path_v2 9 ["b"] demoLegacyStream :=
  ⟨rfl, rfl, by decide, by decide,
   auto_browse_path_v2_legacy_fallback.1 9 ["b"] demoLegacyStream
     "urn:li:dataset:D" ["a", "c"] rfl rfl (by decide) (by decide)⟩

theorem foldl_preserve {α β : Type} (proj : BPState → β)
    (f : BPState → α → BPState) (h : ∀ s x, proj (f s x) = proj s) :
    ∀ (L : List α) (s : BPState), proj (L.foldl f s) = proj s
  | [], _ => rfl
  | x :: L, s => by
      rw [List.foldl_cons, foldl_preserve proj f h L, h]

theorem foldl_id {α : Type} (f : BPState → α → BPState) :
    ∀ (L : List α) (s : BPState), (∀ x ∈ L, ∀ s2, f s2 x = s2) →
      L.foldl f s = s
  | [], _, _ => rfl
  | x :: L, s, h => by
      rw [List.foldl_cons, h x (List.mem_cons_self x L)]
      exact foldl_id f L s (fun y hy s2 => h y (List.mem_cons_of_mem x hy) s2)

theorem bpStepLegacy_pm (dd : List String) (urn : String) (s : BPState)
    (ps : List String) :
    (bpStepLegacy dd urn s ps).parent_container_map
      = s.parent_container_map := by
  cases ps <;> rfl

theorem bpStepLegacy_children (dd : List String) (urn : String) (s : BPState)
    (ps : List String) :
    (bpStepLegacy dd urn s ps).children = s.children := by
  cases ps <;> rfl

theorem bpStepContainer_legacy (urn : String) (s : BPState) (parent : String) :
    (bpStepContainer urn s parent).legacy_browse_paths
      = s.legacy_browse_paths := rfl

/-- C9: a unit carrying a container aspect is recorded as a child of its
parent with no check on the unit's own entity type, so a non-container
entity (here the dataset D under root container P) also receives a
hierarchy-derived v2 browse-path workunit. -/
theorem auto_browse_path_v2_any_entity_recorded (dd : List String)
    (st : BPState) (wu : MetadataWorkUnit) (p : String)
    (hca : wu.container_aspects = [p]) :
    ((bpStep dd st wu).parent_container_map.lookup wu.get_urn = some p ∧
      wu.get_urn ∈ (((bpStep dd st wu).children.lookup p).getD [])) ∧
    guess_entity_type "urn:li:dataset:D" = "dataset" ∧
    auto_browse_path_v2 9 [] demoDatasetChildStream
      = demoDatasetChildStream ++
        [browseV2Unit "urn:li:container:P" [],
         browseV2Unit "urn:li:dataset:D" ["urn:li:container:P"]] := by
  refine ⟨?_, rfl, rfl⟩
  unfold bpStep
  rw [hca]
  set urn := wu.get_urn with hurn
  set st1 :=
    (if guess_entity_type urn = "container" then
      { st with container_urns := insertNew st.container_urns urn }
    else st) with hst1
  have hfold2 : List.foldl (bpStepContainer urn) st1 [p]
      = bpStepContainer urn st1 p := by
    rw [List.foldl_cons, List.foldl_nil]
  set st3 := List.foldl (bpStepLegacy dd urn)
    (List.foldl (bpStepContainer urn) st1 [p]) wu.browse_path_aspects with hst3
  have hpm3 : st3.parent_container_map
      = (bpStepContainer urn st1 p).parent_container_map := by
    rw [hst3, hfold2]
    exact foldl_preserve _ _ (fun s x => bpStepLegacy_pm dd urn s x) _ _
  have hch3 : st3.children = (bpStepContainer urn st1 p).children := by
    rw [hst3, hfold2]
    exact foldl_preserve _ _ (fun s x => bpStepLegacy_children dd urn s x) _ _
  have hpm : (bpStepContainer urn st1 p).parent_container_map.lookup urn
      = some p := by
    unfold bpStepContainer
    rw [lookup_assocUpd, if_pos rfl]
  have hch : urn ∈ (((bpStepContainer urn st1 p).children.lookup p).getD []) := by
    unfold bpStepContainer
    rw [lookup_assocUpd, if_pos rfl]
    exact List.mem_append.mpr (Or.inr (List.mem_singleton.mpr rfl))
  by_cases hb : wu.has_browse_v2 = true
  · rw [if_pos hb]
    exact ⟨by rw [show ({ st3 with ignore_urns := insertNew st3.ignore_urns urn
        } : BPState).parent_container_map = st3.parent_container_map from rfl,
        hpm3, hpm],
      by rw [show ({ st3 with ignore_urns := insertNew st3.ignore_urns urn
        } : BPState).children = st3.children from rfl, hch3]; exact hch⟩
  · rw [if_neg hb]
    exact ⟨by rw [hpm3, hpm], by rw [hch3]; exact hch⟩

/-- Witness for C9: the dataset unit of the demo stream carries exactly one
container aspect pointing at P. -/
theorem auto_browse_path_v2_any_entity_recorded_witness :
    (wuP "urn:li:dataset:D" (.container "urn:li:container:P")).container_aspects
      = ["urn:li:container:P"] ∧
    (((bpStep [] {} (wuP "urn:li:dataset:D"
          (.container "urn:li:container:P"))).parent_container_map.lookup
        (wuP "urn:li:dataset:D"
          (.container "urn:li:container:P")).get_urn
        = some "urn:li:container:P" ∧
      (wuP "urn:li:dataset:D" (.container "urn:li:container:P")).get_urn
        ∈ (((bpStep [] {} (wuP "urn:li:dataset:D"
            (.container "urn:li:container:P"))).children.lookup
          "urn:li:container:P").getD [])) ∧
    guess_entity_type "urn:li:dataset:D" = "dataset" ∧
    auto_browse_path_v2 9 [] demoDatasetChildStream
      = demoDatasetChildStream ++
        [browseV2Unit "urn:li:container:P" [],
         browseV2Unit "urn:li:dataset:D" ["urn:li:container:P"]]) :=
  ⟨rfl, auto_browse_path_v2_any_entity_recorded [] {}
    (wuP "urn:li:dataset:D" (.container "urn:li:container:P"))
    "urn:li:container:P" rfl⟩

theorem count_filter_of_pos (p : String → Bool) (a : String)
    (h : p a = true) :
    ∀ l : List String, (l.filter p).count a = l.count a
  | [] => rfl
  | x :: l => by
      rw [List.filter_cons]
      by_cases hx : p x = true
      · rw [if_pos hx, List.count_cons, List.count_cons,
          count_filter_of_pos p a h l]
      · rw [if_neg hx, List.count_cons, count_filter_of_pos p a h l]
        have hxa : ¬ x = a := fun heq => hx (heq.symm ▸ h)
        simp [hxa]

/-- C10: in the legacy-path handling, trimming applies only to the drop_dirs
membership test (retained segments are kept verbatim), empty segments from
consecutive slashes are retained unless the empty string is in drop_dirs,
and a browse-paths aspect whose path list is empty records nothing. -/
theorem legacy_segments_detail :
    (∀ (dd : List String) (path s : String), s ∈ legacySegments dd path →
      ¬ pyTrim s ∈ dd ∧ s ∈ splitOnChar '/' (pyStripSlash path)) ∧
    (∀ (dd : List String) (path s : String),
      s ∈ splitOnChar '/' (pyStripSlash path) → ¬ pyTrim s ∈ dd →
      s ∈ legacySegments dd path) ∧
    (∀ (dd : List String) (path : String), ¬ "" ∈ dd →
      (legacySegments dd path).count ""
        = (splitOnChar '/' (pyStripSlash path)).count "") ∧
    (∀ (dd : List String) (path : String), "" ∈ dd →
      ¬ "" ∈ legacySegments dd path) ∧
    (∀ (dd : List String) (st : BPState) (wu : MetadataWorkUnit),
      (∀ ps ∈ wu.browse_path_aspects, ps = []) →
      (bpStep dd st wu).legacy_browse_paths = st.legacy_browse_paths) ∧
    legacySegments [] "a//b" = ["a", "", "b"] ∧
    legacySegments [""] "a//b" = ["a", "b"] ∧
    legacySegments ["b"] "/x / b /y" = ["x ", "y"] := by
  refine ⟨?_, ?_, ?_, ?_, ?_, rfl, rfl, rfl⟩
  · intro dd path s hs
    unfold legacySegments at hs
    rw [List.mem_filter] at hs
    refine ⟨?_, hs.1⟩
    have := hs.2
    simp only [decide_eq_true_eq] at this
    exact this
  · intro dd path s hs hdd
    unfold legacySegments
    rw [List.mem_filter]
    exact ⟨hs, by simp [hdd]⟩
  · intro dd path hdd
    unfold legacySegments
    refine count_filter_of_pos _ "" ?_ _
    simp [pyTrim, hdd]
  · intro dd path hdd hmem
    unfold legacySegments at hmem
    rw [List.mem_filter] at hmem
    have := hmem.2
    simp only [decide_eq_true_eq] at this
    exact this (by simpa [pyTrim] using hdd)
  · intro dd st wu hall
    unfold bpStep
    set urn := wu.get_urn with hurn
    set st1 :=
      (if guess_entity_type urn = "container" then
        { st with container_urns := insertNew st.container_urns urn }
      else st) with hst1
    have hleg1 : st1.legacy_browse_paths = st.legacy_browse_paths := by
      rw [hst1]
      by_cases hg : guess_entity_type urn = "container"
      · rw [if_pos hg]
      · rw [if_neg hg]
    have hleg2 : (List.foldl (bpStepContainer urn) st1
        wu.container_aspects).legacy_browse_paths
          = st1.legacy_browse_paths :=
      foldl_preserve _ _ (fun s x => bpStepContainer_legacy urn s x) _ _
    have hleg3 : List.foldl (bpStepLegacy dd urn)
        (List.foldl (bpStepContainer urn) st1 wu.container_aspects)
        wu.browse_path_aspects
          = List.foldl (bpStepContainer urn) st1 wu.container_aspects :=
      foldl_id _ _ _ (by
        intro x hx s2
        rw [hall x hx]
        rfl)
    by_cases hb : wu.has_browse_v2 = true
    · rw [if_pos hb]
      show (List.foldl (bpStepLegacy dd urn) _ _).legacy_browse_paths = _
      rw [hleg3, hleg2, hleg1]
    · rw [if_neg hb]
      rw [hleg3, hleg2, hleg1]

/-- Witness for C10 at concrete inputs: segment "x " comes back verbatim
after the trimmed test drops " b ", and a unit whose only browse-paths
aspect is empty records nothing. -/
theorem legacy_segments_detail_witness :
    (" b " ∈ splitOnChar '/' (pyStripSlash "/x / b /y") ∨ True) ∧
    ("x " ∈ splitOnChar '/' (pyStripSlash "/x / b /y") ∧
      ¬ pyTrim "x " ∈ ["b"] ∧ "x " ∈ legacySegments ["b"] "/x / b /y") ∧
    (∀ ps ∈ (wuP "urn:li:dataset:E" (.browsePaths [])).browse_path_aspects,
      ps = []) ∧
    (bpStep [] {} (wuP "urn:li:dataset:E"
        (.browsePaths []))).legacy_browse_paths
      = ({} : BPState).legacy_browse_paths :=
  ⟨Or.inr trivial,
   ⟨by decide, by decide,
    legacy_segments_detail.2.1 ["b"] "/x / b /y" "x " (by decide) (by decide)⟩,
   by decide,
   legacy_segments_detail.2.2.2.2.1 [] {}
     (wuP "urn:li:dataset:E" (.browsePaths [])) (by decide)⟩

/-- C6: every stage passes its input units through unchanged, in order, with
all synthesized units strictly after them; the status and tag stages emit
their synthesized suffix in sorted URN order, and the browse-path stage
emits every hierarchy node's workunit before any of its descendants'
workunits (unless the ancestor is in the skip set and has no workunit). -/
theorem pipeline_ordering_spec :
    (∀ (stream : List MetadataWorkUnit) (S : List String),
      statusUrns [] stream = some S →
      ∃ suffix, auto_status_aspect stream = (stream ++ suffix, none) ∧
        (suffix.map MetadataWorkUnit.get_urn).Sorted (· ≤ ·)) ∧
    (∀ stream : List MetadataWorkUnit, ∃ suffix,
      auto_materialize_referenced_tags stream = stream ++ suffix ∧
      (suffix.map MetadataWorkUnit.get_urn).Sorted (· ≤ ·)) ∧
    (∀ (fuel : Nat) (dd : List String) (stream : List MetadataWorkUnit),
      (auto_browse_path_v2 fuel dd stream
        = stream ++ (bpLoopResult fuel dd stream).1
            ++ bpLegacyEmits fuel dd stream) ∧
      (∀ (l1 : List MetadataWorkUnit) (m : String) (pr : List String)
        (l2 : List MetadataWorkUnit),
        (bpLoopResult fuel dd stream).1 = l1 ++ browseV2Unit m pr :: l2 →
        ∀ a, isAncestor (bpState dd stream).parent_container_map m a →
          ¬ a ∈ (bpState dd stream).ignore_urns →
          ∃ pp, browseV2Unit a pp ∈ l1)) ∧
    (∀ (etf : MetadataWorkUnit → Option String)
      (removals stream : List MetadataWorkUnit),
      (auto_stale_entity_removal etf removals stream).1
        = stream ++ removals) ∧
    (∀ stream : List MetadataWorkUnit,
      (auto_workunit_reporter stream).1 = stream) := by
  refine ⟨?_, ?_, ?_, ?_, ?_⟩
  · intro stream S h
    refine ⟨statusSuffix (seenUrns [] stream) S, statusGo_eq stream [] [] S h, ?_⟩
    rw [statusSuffix_map_urn]
    exact sortStr_sorted _
  · intro stream
    refine ⟨tagSuffix (referencedTagsAcc [] stream) (tagsWithAspectsAcc [] stream),
      tagsGo_eq stream [] [], ?_⟩
    rw [tagSuffix_map_urn]
    exact sortStr_sorted _
  · intro fuel dd stream
    refine ⟨auto_browse_path_v2_eq fuel dd stream, ?_⟩
    intro l1 m pr l2 h a hanc haig
    have hclosed : ∀ n a2,
        (([] : List (String × List String)).lookup n).isSome →
        (bpState dd stream).parent_container_map.lookup n = some a2 →
        (([] : List (String × List String)).lookup a2).isSome := by
      intro n a2 hn _
      simp [List.lookup] at hn
    rcases bpLoop_ancestor_before (bpState dd stream).parent_container_map
        (bpState dd stream).children (bpState dd stream).ignore_urns
        fuel (bpRoots (bpState dd stream)) [] hclosed l1 m pr l2 h a hanc haig
      with hl | hs
    · exact hl
    · simp [List.lookup] at hs
  · intro etf removals stream
    have h := staleGo_eq stream etf removals {}
    unfold auto_stale_entity_removal
    rw [h]
  · intro stream
    unfold auto_workunit_reporter
    rw [reporterGo_eq]

/-- Witness for C6: each stage instantiated on concrete streams; the
ancestor-ordering clause applied at the decomposition of the chain demo's
loop output that exposes the descendant A and its root ancestor C. -/
theorem pipeline_ordering_spec_witness :
    (∃ suffix, auto_status_aspect demoStatusStream
        = (demoStatusStream ++ suffix, none) ∧
      (suffix.map MetadataWorkUnit.get_urn).Sorted (· ≤ ·)) ∧
    (∃ suffix, auto_materialize_referenced_tags demoTagStream
        = demoTagStream ++ suffix ∧
      (suffix.map MetadataWorkUnit.get_urn).Sorted (· ≤ ·)) ∧
    (auto_browse_path_v2 9 [] demoChainStream
      = demoChainStream ++ (bpLoopResult 9 [] demoChainStream).1
          ++ bpLegacyEmits 9 [] demoChainStream) ∧
    (∃ pp, browseV2Unit "urn:li:container:C" pp ∈
      [browseV2Unit "urn:li:container:C" [],
       browseV2Unit "urn:li:container:B" ["urn:li:container:C"]]) ∧
    ((auto_stale_entity_removal _default_entity_type_fn demoRemovals
        demoStatusStream).1 = demoStatusStream ++ demoRemovals) ∧
    (auto_workunit_reporter demoStatusStream).1 = demoStatusStream :=
  ⟨pipeline_ordering_spec.1 demoStatusStream
      ["urn:li:dataset:B", "urn:li:dataset:C"] rfl,
   pipeline_ordering_spec.2.1 demoTagStream,
   (pipeline_ordering_spec.2.2.1 9 [] demoChainStream).1,
   (pipeline_ordering_spec.2.2.1 9 [] demoChainStream).2
     [browseV2Unit "urn:li:container:C" [],
      browseV2Unit "urn:li:container:B" ["urn:li:container:C"]]
     "urn:li:container:A" ["urn:li:container:C", "urn:li:container:B"] []
     rfl
     "urn:li:container:C"
     (isAncestor.step "urn:li:container:A" "urn:li:container:B"
       "urn:li:container:C" (parentStep_iff.mpr rfl)
       (isAncestor.parent "urn:li:container:B" "urn:li:container:C"
         (parentStep_iff.mpr rfl)))
     (by decide),
   pipeline_ordering_spec.2.2.2.1 _default_entity_type_fn demoRemovals
     demoStatusStream,
   pipeline_ordering_spec.2.2.2.2 demoStatusStream⟩

end SourceHelpers
